import Mathlib

/-!
# Shipwright entity/component storage: a shallow embedding

Sources embedded here: `src/static_array.hpp` (the bounded buffer
`StaticArray`) and `src/entity.hpp` (`ComponentArray`, `EntitySubsystem`,
`init`, `alloc_entity`, `free_entity`, `add`, `set`, `get`, `Archetype`).

Modelling conventions.
* The global `sys` becomes an explicit state that every operation takes and
  returns.
* `assert` is enabled (debug build).  A failing assertion is the result
  `Except.error Fault.assertion`.
* The raw C arrays `owner[MAX_ENTITIES]` and `indirect[MAX_ENTITIES]` are total
  maps `Nat → Nat`; an access at an index `≥ MAX_ENTITIES`, which C++ leaves
  undefined, is the result `Except.error Fault.undefined`.
* `u32` / `size_t` values, among them `EntityID = u32`, are natural numbers,
  reduced modulo `2^32` / `2^64` at the conversions and subtractions where a
  wrap could happen.  `common.hpp`, which declares `u32` and `f32`, is not
  among the sources; the two names are read as the 32-bit unsigned integer and
  the 32-bit float.
* `std::set<EntityID>` is a `Finset`.
* `f32` fields are carried as their 32-bit patterns: components are only ever
  copied, never computed with.
-/

namespace Entity

/-- Outcome of an aborted call: a failed `assert`, or an out-of-bounds access
to a raw array (undefined behaviour in the source language). -/
inductive Fault where
  | assertion
  | undefined
  deriving DecidableEq, Repr

/-- `static constexpr u32 MAX_ENTITIES = 4096;` -/
@[reducible] def MAX_ENTITIES : Nat := 4096

/-- Conversion of a `size_t` value to `u32`: reduction modulo `2^32`. -/
def to_u32 (n : Nat) : Nat := n % 4294967296

/-- The `size_t` subtraction `n - 1`, which wraps to `2^64 - 1` at `n = 0`. -/
def size_pred (n : Nat) : Nat := if n = 0 then 18446744073709551615 else n - 1

/-! ## `StaticArray` (static_array.hpp) -/

/-- `template <typename DataType, size_t Capacity> class StaticArray`:
`std::array<DataType, Capacity> data; size_t len = 0;`.  The cells are a total
map; the class reads and writes `data` only at an index an assertion has
bounded by `Capacity`, or at `len - 1` with `len > 0` asserted. -/
structure StaticArray (DataType : Type) (Capacity : Nat) where
  data : Nat → DataType
  len : Nat

namespace StaticArray

variable {DataType : Type} {Capacity : Nat}

/-- `assert_has_items`: `assert(len > 0)`. -/
def assert_has_items (a : StaticArray DataType Capacity) : Except Fault Unit :=
  if 0 < a.len then .ok () else .error .assertion

/-- `assert_has_space`: `assert(len < Capacity)`. -/
def assert_has_space (a : StaticArray DataType Capacity) : Except Fault Unit :=
  if a.len < Capacity then .ok () else .error .assertion

/-- `assert_in_bounds`: `assert(idx >= 0 && idx < Capacity)`. -/
def assert_in_bounds (_a : StaticArray DataType Capacity) (idx : Nat) : Except Fault Unit :=
  if 0 ≤ idx ∧ idx < Capacity then .ok () else .error .assertion

/-- `append`: `assert_has_space(); data[len++] = item;`. -/
def append (a : StaticArray DataType Capacity) (item : DataType) :
    Except Fault (StaticArray DataType Capacity) := do
  a.assert_has_space
  pure { data := Function.update a.data a.len item, len := a.len + 1 }

/-- `pop`: `assert_has_items(); DataType res = data[--len]; return res;`. -/
def pop (a : StaticArray DataType Capacity) :
    Except Fault (DataType × StaticArray DataType Capacity) := do
  a.assert_has_items
  pure (a.data (a.len - 1), { a with len := a.len - 1 })

/-- `swap_remove`: both assertions, `std::swap(data[idx], data[len - 1]); len--;`. -/
def swap_remove (a : StaticArray DataType Capacity) (idx : Nat) :
    Except Fault (StaticArray DataType Capacity) := do
  a.assert_has_items
  a.assert_in_bounds idx
  pure { data := Function.update (Function.update a.data idx (a.data (a.len - 1)))
                   (a.len - 1) (a.data idx),
         len := a.len - 1 }

/-- `set`: both assertions, `data[idx] = value;`. -/
def set (a : StaticArray DataType Capacity) (idx : Nat) (value : DataType) :
    Except Fault (StaticArray DataType Capacity) := do
  a.assert_has_items
  a.assert_in_bounds idx
  pure { a with data := Function.update a.data idx value }

/-- `get`: both assertions, `return data[idx];`. -/
def get (a : StaticArray DataType Capacity) (idx : Nat) : Except Fault DataType := do
  a.assert_has_items
  a.assert_in_bounds idx
  pure (a.data idx)

/-- `get_ptr`: both assertions, `return &data[idx];`.  The address is
represented by the index of the cell it points to. -/
def get_ptr (a : StaticArray DataType Capacity) (idx : Nat) : Except Fault Nat := do
  a.assert_has_items
  a.assert_in_bounds idx
  pure idx

/-- `size`: `return len;`. -/
def size (a : StaticArray DataType Capacity) : Nat := a.len

/-- The live elements `data[0], …, data[len - 1]`, in index order. -/
def toList (a : StaticArray DataType Capacity) : List DataType :=
  (List.range a.len).map a.data

end StaticArray

/-! ## `ComponentArray` (entity.hpp) -/

/-- `using EntityArray = StaticArray<EntityID, MAX_ENTITIES>;` -/
abbrev EntityArray := StaticArray Nat MAX_ENTITIES

/-- `using EntitySet = std::set<EntityID>;` -/
abbrev EntitySet := Finset Nat

/-- `template <typename Component> class ComponentArray`, fields
`components`, `active_entities`, `owner[MAX_ENTITIES]`, `indirect[MAX_ENTITIES]`. -/
structure ComponentArray (Component : Type) where
  components : StaticArray Component MAX_ENTITIES
  active_entities : EntitySet
  owner : Nat → Nat
  indirect : Nat → Nat

namespace ComponentArray

variable {Component : Type}

/-- A raw array of `MAX_ENTITIES` cells is only defined below `MAX_ENTITIES`. -/
def in_raw_array (i : Nat) : Except Fault Unit :=
  if i < MAX_ENTITIES then .ok () else .error .undefined

/-- `assert_entity_has_component`: `assert(active_entities.count(id) > 0)`. -/
def assert_entity_has_component (s : ComponentArray Component) (id : Nat) :
    Except Fault Unit :=
  if id ∈ s.active_entities then .ok () else .error .assertion

/-- `component_idx_for`: `return indirect[id];`. -/
def component_idx_for (s : ComponentArray Component) (id : Nat) : Except Fault Nat := do
  in_raw_array id
  pure (s.indirect id)

/-- `owner_of`: `return owner[index];`. -/
def owner_of (s : ComponentArray Component) (index : Nat) : Except Fault Nat := do
  in_raw_array index
  pure (s.owner index)

/-- `update_owner`: `owner[index] = id;`. -/
def update_owner (s : ComponentArray Component) (index : Nat) (id : Nat) :
    Except Fault (ComponentArray Component) := do
  in_raw_array index
  pure { s with owner := Function.update s.owner index id }

/-- `update_mapping`: `indirect[id] = index;`. -/
def update_mapping (s : ComponentArray Component) (id : Nat) (index : Nat) :
    Except Fault (ComponentArray Component) := do
  in_raw_array id
  pure { s with indirect := Function.update s.indirect id index }

/-- `alloc_for`: when `active_entities.insert(id).second` holds, append
`Component()`, take `idx = components.size() - 1`, then `update_mapping(id, idx)`
and `update_owner(idx, id)`. -/
def alloc_for [Inhabited Component] (s : ComponentArray Component) (id : Nat) :
    Except Fault (ComponentArray Component) :=
  if id ∈ s.active_entities then pure s
  else do
    let s1 := { s with active_entities := insert id s.active_entities }
    let comps ← s1.components.append default
    let s2 := { s1 with components := comps }
    let idx := size_pred s2.components.size
    let s3 ← s2.update_mapping id (to_u32 idx)
    s3.update_owner (to_u32 idx) id

/-- `remove_from`: when `active_entities.erase(id) > 0`, read
`remove_idx = component_idx_for(id)`, `swap_idx = components.size() - 1`,
`swapped_entity = owner_of(swap_idx)`, then `components.swap_remove(remove_idx)`,
`update_mapping(swapped_entity, remove_idx)`, `update_owner(remove_idx, swapped_entity)`. -/
def remove_from (s : ComponentArray Component) (id : Nat) :
    Except Fault (ComponentArray Component) :=
  if id ∈ s.active_entities then do
    let s1 := { s with active_entities := s.active_entities.erase id }
    let remove_idx ← s1.component_idx_for id
    let swap_idx := to_u32 (size_pred s1.components.size)
    let swapped_entity ← s1.owner_of swap_idx
    let comps ← s1.components.swap_remove remove_idx
    let s2 := { s1 with components := comps }
    let s3 ← s2.update_mapping swapped_entity remove_idx
    s3.update_owner remove_idx swapped_entity
  else pure s

/-- `set`: `assert_entity_has_component(id); components.set(component_idx_for(id), val);`. -/
def set (s : ComponentArray Component) (id : Nat) (val : Component) :
    Except Fault (ComponentArray Component) := do
  s.assert_entity_has_component id
  let idx ← s.component_idx_for id
  let comps ← s.components.set idx val
  pure { s with components := comps }

/-- `get`: `assert_entity_has_component(id); return components.get(component_idx_for(id));`. -/
def get (s : ComponentArray Component) (id : Nat) : Except Fault Component := do
  s.assert_entity_has_component id
  let idx ← s.component_idx_for id
  s.components.get idx

/-- `get_ptr`: `assert_entity_has_component(id); return components.get_ptr(component_idx_for(id));`. -/
def get_ptr (s : ComponentArray Component) (id : Nat) : Except Fault Nat := do
  s.assert_entity_has_component id
  let idx ← s.component_idx_for id
  s.components.get_ptr idx

/-- The state `alloc_for` builds for an identifier that was not active, once
every check on its path has passed. -/
def allocated [Inhabited Component] (s : ComponentArray Component) (id : Nat) :
    ComponentArray Component where
  components :=
    { data := Function.update s.components.data s.components.len default,
      len := s.components.len + 1 }
  active_entities := insert id s.active_entities
  owner := Function.update s.owner s.components.len id
  indirect := Function.update s.indirect id s.components.len

/-- The state `remove_from` builds for an active identifier, once every check
on its path has passed and the dense length is within `1 .. MAX_ENTITIES`. -/
def removed (s : ComponentArray Component) (id : Nat) : ComponentArray Component where
  components :=
    { data := Function.update
        (Function.update s.components.data (s.indirect id)
          (s.components.data (s.components.len - 1)))
        (s.components.len - 1) (s.components.data (s.indirect id)),
      len := s.components.len - 1 }
  active_entities := s.active_entities.erase id
  owner := Function.update s.owner (s.indirect id) (s.owner (s.components.len - 1))
  indirect := Function.update s.indirect (s.owner (s.components.len - 1)) (s.indirect id)

/-- The state `set` builds for an active identifier, once every check on its
path has passed. -/
def written (s : ComponentArray Component) (id : Nat) (val : Component) :
    ComponentArray Component :=
  { s with components :=
      { s.components with data := Function.update s.components.data (s.indirect id) val } }

/-- The dense slots below the current length that record `id` as their owner:
the rows the store holds for `id`. -/
def rows_of (s : ComponentArray Component) (id : Nat) : Finset Nat :=
  (Finset.range s.components.len).filter (fun i => s.owner i = id)

/-- A store right after static zero-initialisation: no component, no active
entity, both raw arrays zeroed. -/
def empty [Inhabited Component] : ComponentArray Component where
  components := { data := fun _ => default, len := 0 }
  active_entities := ∅
  owner := fun _ => 0
  indirect := fun _ => 0

/-- Store states produced from the zero-initialised store by calls of
`alloc_for`, `remove_from` and `set` on identifiers below `MAX_ENTITIES` that
returned (a call that aborts has no successor state). -/
inductive Reachable [Inhabited Component] : ComponentArray Component → Prop where
  | empty : Reachable empty
  | alloc_for {s s' : ComponentArray Component} (id : Nat) :
      Reachable s → id < MAX_ENTITIES → s.alloc_for id = .ok s' → Reachable s'
  | remove_from {s s' : ComponentArray Component} (id : Nat) :
      Reachable s → id < MAX_ENTITIES → s.remove_from id = .ok s' → Reachable s'
  | set {s s' : ComponentArray Component} (id : Nat) (val : Component) :
      Reachable s → id < MAX_ENTITIES → s.set id val = .ok s' → Reachable s'

/-- The sparse-set invariant of a store: the dense length is the number of
active entities, active entities are valid identifiers whose slot is live and
owned by them, and every live slot is owned by an active entity mapped to it. -/
structure Inv (s : ComponentArray Component) : Prop where
  card : s.active_entities.card = s.components.len
  active : ∀ e ∈ s.active_entities,
    e < MAX_ENTITIES ∧ s.indirect e < s.components.len ∧ s.owner (s.indirect e) = e
  slot : ∀ i, i < s.components.len →
    s.owner i ∈ s.active_entities ∧ s.indirect (s.owner i) = i

/-- The mapping half of the sparse-set invariant: every active entity owns the
slot it is mapped to, and that slot is below the dense length. -/
def mapping_ok (s : ComponentArray Component) : Prop :=
  ∀ e ∈ s.active_entities,
    s.owner (s.indirect e) = e ∧ s.indirect e < s.components.size

/-- The slot half of the sparse-set invariant: every dense slot below the
length is owned by an active entity whose mapping points back to it. -/
def slots_ok (s : ComponentArray Component) : Prop :=
  ∀ i, i < s.components.size →
    s.owner i ∈ s.active_entities ∧ s.indirect (s.owner i) = i

/-- A concrete store over `Nat` components: entities 1, 2, 3 added in that
order and given the values 10, 20, 30. -/
def sample_store : ComponentArray Nat :=
  ((((((empty : ComponentArray Nat).allocated 1).allocated 2).allocated 3).written 1 10).written
    2 20).written 3 30

end ComponentArray

/-! ## Components and the registry (entity.hpp) -/

/-- `struct TransformComponent { f32 x; f32 y; f32 z; };`, each field carried
as its bit pattern. -/
structure TransformComponent where
  x : Nat
  y : Nat
  z : Nat
  deriving DecidableEq, Repr

/-- `struct HealthComponent { u32 health; u32 max_health; };` -/
structure HealthComponent where
  health : Nat
  max_health : Nat
  deriving DecidableEq, Repr

/-- `TransformComponent()`: value-initialisation zeroes every field. -/
instance : Inhabited TransformComponent := ⟨⟨0, 0, 0⟩⟩

/-- `HealthComponent()`: value-initialisation zeroes every field. -/
instance : Inhabited HealthComponent := ⟨⟨0, 0⟩⟩

/-- The component types for which `get_component_array` has a branch. -/
inductive ComponentKind where
  | Transform
  | Health
  deriving DecidableEq, Repr

/-- The C++ type named by a component kind. -/
@[reducible] def ComponentKind.Component : ComponentKind → Type
  | .Transform => TransformComponent
  | .Health => HealthComponent

instance (k : ComponentKind) : Inhabited k.Component :=
  match k with
  | .Transform => inferInstanceAs (Inhabited TransformComponent)
  | .Health => inferInstanceAs (Inhabited HealthComponent)

/-- `class EntitySubsystem`: `free_entities`, `transforms`, `healths`. -/
structure EntitySubsystem where
  free_entities : EntityArray
  transforms : ComponentArray TransformComponent
  healths : ComponentArray HealthComponent

namespace EntitySubsystem

/-- `get_component_array<T>()`: `&transforms` for `TransformComponent`,
`&healths` for `HealthComponent`. -/
def get_component_array (s : EntitySubsystem) : (k : ComponentKind) → ComponentArray k.Component
  | .Transform => s.transforms
  | .Health => s.healths

/-- Write-back through the pointer `get_component_array<T>()` returned. -/
def put_component_array (s : EntitySubsystem) :
    (k : ComponentKind) → ComponentArray k.Component → EntitySubsystem
  | .Transform, a => { s with transforms := a }
  | .Health, a => { s with healths := a }

end EntitySubsystem

/-- `static EntitySubsystem sys;`: zero-initialised static storage. -/
def sys : EntitySubsystem where
  free_entities := { data := fun _ => 0, len := 0 }
  transforms := ComponentArray.empty
  healths := ComponentArray.empty

/-- The loop of `init` from counter value `i` on:
`for (...; i < MAX_ENTITIES; i++) sys.free_entities.append(i);`. -/
def init_from (i : Nat) (s : EntitySubsystem) : Except Fault EntitySubsystem :=
  if i < MAX_ENTITIES then do
    let fe ← s.free_entities.append i
    init_from (i + 1) { s with free_entities := fe }
  else pure s
termination_by MAX_ENTITIES - i

/-- `init`: the loop started at `i = 0`. -/
def init (s : EntitySubsystem) : Except Fault EntitySubsystem := init_from 0 s

/-- `alloc_entity`: `return sys.free_entities.pop();`. -/
def alloc_entity (s : EntitySubsystem) : Except Fault (Nat × EntitySubsystem) := do
  let (id, fe) ← s.free_entities.pop
  pure (id, { s with free_entities := fe })

/-- `free_entity`: `sys.transforms.remove_from(id); sys.free_entities.append(id);`. -/
def free_entity (id : Nat) (s : EntitySubsystem) : Except Fault EntitySubsystem := do
  let t ← s.transforms.remove_from id
  let s1 := { s with transforms := t }
  let fe ← s1.free_entities.append id
  pure { s1 with free_entities := fe }

/-- `add<Component>(id)`: `sys.get_component_array<Component>()->alloc_for(id);`. -/
def add (k : ComponentKind) (id : Nat) (s : EntitySubsystem) : Except Fault EntitySubsystem := do
  let a ← (s.get_component_array k).alloc_for id
  pure (s.put_component_array k a)

/-- `set<Component>(id, val)`: `sys.get_component_array<Component>()->set(id, val);`. -/
def set (k : ComponentKind) (id : Nat) (val : k.Component) (s : EntitySubsystem) :
    Except Fault EntitySubsystem := do
  let a ← (s.get_component_array k).set id val
  pure (s.put_component_array k a)

/-- `get<Component>(id)`: `return sys.get_component_array<Component>()->get(id);`. -/
def get (k : ComponentKind) (id : Nat) (s : EntitySubsystem) : Except Fault k.Component :=
  (s.get_component_array k).get id

/-- `get_ptr<Component>(id)`. -/
def get_ptr (k : ComponentKind) (id : Nat) (s : EntitySubsystem) : Except Fault Nat :=
  (s.get_component_array k).get_ptr id

/-! ## `Archetype` (entity.hpp) -/

/-- `std::set_union` on two sorted ranges, after the reference formulation of
the algorithm: the smaller head is written first, equal heads are written once,
and the rest of the longer range is copied. -/
def set_union : List Nat → List Nat → List Nat
  | [], ys => ys
  | x :: xs, [] => x :: xs
  | x :: xs, y :: ys =>
    if y < x then y :: set_union (x :: xs) ys
    else if x < y then x :: set_union xs (y :: ys)
    else x :: set_union xs ys
termination_by xs ys => xs.length + ys.length

/-- The call `std::set_union(entities.begin(), entities.end(), first2, last2,
std::inserter(entities, entities.begin()))`: the two ranges are the ascending
element sequences of `entities` and of the second set, and every element the
algorithm writes is inserted into `entities`.  The first range is taken as it
stands when the call starts: an element written while the merge runs is either
already in `entities` or smaller than the element then being read. -/
def set_union_into (entities second : EntitySet) : EntitySet :=
  (set_union (entities.sort (· ≤ ·)) (second.sort (· ≤ ·))).foldl
    (fun acc x => insert x acc) entities

namespace Archetype

/-- `apply_archetype<i>(entity)` for the remaining type list: `add` the head
type, then recurse on the tail. -/
def apply_archetype : List ComponentKind → Nat → EntitySubsystem → Except Fault EntitySubsystem
  | [], _, s => pure s
  | k :: ks, entity, s => do
    let s1 ← add k entity s
    apply_archetype ks entity s1

/-- `Archetype<Types...>::alloc()`: `alloc_entity()`, `apply_archetype(entity)`,
`return entity`. -/
def alloc (types : List ComponentKind) (s : EntitySubsystem) :
    Except Fault (Nat × EntitySubsystem) := do
  let (entity, s1) ← alloc_entity s
  let s2 ← apply_archetype types entity s1
  pure (entity, s2)

/-- `find<i>(entities)` for the remaining type list: union the active set of
the head type's store into `entities`, then recurse on the tail. -/
def find : List ComponentKind → EntitySubsystem → EntitySet → EntitySet
  | [], _, entities => entities
  | k :: ks, s, entities =>
    find ks s (set_union_into entities (s.get_component_array k).active_entities)

/-- `Archetype<Types...>::find_entities(out)`: `find(out);`. -/
def find_entities (types : List ComponentKind) (s : EntitySubsystem) (out : EntitySet) :
    EntitySet :=
  find types s out

end Archetype

/-- `n` calls of `alloc_entity` in a row; the identifiers returned, in call
order, and the final state. -/
def alloc_many : Nat → EntitySubsystem → Except Fault (List Nat × EntitySubsystem)
  | 0, s => pure ([], s)
  | n + 1, s => do
    let (e, s1) ← alloc_entity s
    let (es, s2) ← alloc_many n s1
    pure (e :: es, s2)

/-- Registry states reached from `init()` on the fresh `sys` by public calls
that returned, paired with the set of identifiers in use: those handed out by
`alloc_entity` or `Archetype::alloc` and not released since.  `free_entity` is
only called on identifiers in use. -/
inductive Reachable : EntitySubsystem → Finset Nat → Prop where
  | init {r : EntitySubsystem} : init sys = .ok r → Reachable r ∅
  | alloc_entity {r r' : EntitySubsystem} {u : Finset Nat} {e : Nat} :
      Reachable r u → alloc_entity r = .ok (e, r') → Reachable r' (insert e u)
  | free_entity {r r' : EntitySubsystem} {u : Finset Nat} (id : Nat) :
      Reachable r u → id ∈ u → free_entity id r = .ok r' → Reachable r' (u.erase id)
  | add {r r' : EntitySubsystem} {u : Finset Nat} (k : ComponentKind) (id : Nat) :
      Reachable r u → add k id r = .ok r' → Reachable r' u
  | set {r r' : EntitySubsystem} {u : Finset Nat} (k : ComponentKind) (id : Nat)
      (val : k.Component) :
      Reachable r u → set k id val r = .ok r' → Reachable r' u
  | archetype_alloc {r r' : EntitySubsystem} {u : Finset Nat} {e : Nat}
      (types : List ComponentKind) :
      Reachable r u → Archetype.alloc types r = .ok (e, r') → Reachable r' (insert e u)

/-- Registry states reached from `init()` on the fresh `sys` by `alloc_entity`
and `free_entity` calls only, `free_entity` being called on identifiers in use. -/
inductive PoolReachable : EntitySubsystem → Finset Nat → Prop where
  | init {r : EntitySubsystem} : init sys = .ok r → PoolReachable r ∅
  | alloc_entity {r r' : EntitySubsystem} {u : Finset Nat} {e : Nat} :
      PoolReachable r u → alloc_entity r = .ok (e, r') → PoolReachable r' (insert e u)
  | free_entity {r r' : EntitySubsystem} {u : Finset Nat} (id : Nat) :
      PoolReachable r u → id ∈ u → free_entity id r = .ok r' → PoolReachable r' (u.erase id)

/-- Registry states reached as in `Reachable`, with `add` and `set` applied only
to identifiers in use. -/
inductive OwnedReachable : EntitySubsystem → Finset Nat → Prop where
  | init {r : EntitySubsystem} : init sys = .ok r → OwnedReachable r ∅
  | alloc_entity {r r' : EntitySubsystem} {u : Finset Nat} {e : Nat} :
      OwnedReachable r u → alloc_entity r = .ok (e, r') → OwnedReachable r' (insert e u)
  | free_entity {r r' : EntitySubsystem} {u : Finset Nat} (id : Nat) :
      OwnedReachable r u → id ∈ u → free_entity id r = .ok r' →
      OwnedReachable r' (u.erase id)
  | add {r r' : EntitySubsystem} {u : Finset Nat} (k : ComponentKind) (id : Nat) :
      OwnedReachable r u → id ∈ u → add k id r = .ok r' → OwnedReachable r' u
  | set {r r' : EntitySubsystem} {u : Finset Nat} (k : ComponentKind) (id : Nat)
      (val : k.Component) :
      OwnedReachable r u → id ∈ u → set k id val r = .ok r' → OwnedReachable r' u
  | archetype_alloc {r r' : EntitySubsystem} {u : Finset Nat} {e : Nat}
      (types : List ComponentKind) :
      OwnedReachable r u → Archetype.alloc types r = .ok (e, r') →
      OwnedReachable r' (insert e u)

/-- The registry invariant: the free pool holds no identifier twice, holds no
identifier in use, pool and in-use set together are exactly the identifiers
below `MAX_ENTITIES`, and both stores satisfy the sparse-set invariant. -/
structure RInv (r : EntitySubsystem) (u : Finset Nat) : Prop where
  nodup : r.free_entities.toList.Nodup
  free : ∀ x ∈ r.free_entities.toList, x ∉ u
  cover : ∀ id, id < MAX_ENTITIES ↔ (id ∈ r.free_entities.toList ∨ id ∈ u)
  transforms : r.transforms.Inv
  healths : r.healths.Inv

/-- The registry right after `init()`: the pool holds `i` at position `i`. -/
def initial : EntitySubsystem :=
  { sys with free_entities :=
      { data := fun j => if j < MAX_ENTITIES then j else 0, len := MAX_ENTITIES } }

/-- The registry after `init()` and one `alloc_entity()`, which handed out
identifier 4095. -/
def after_first_alloc : EntitySubsystem :=
  { initial with free_entities := { initial.free_entities with len := 4095 } }

/-- A buffer of capacity 4 after `append(5)`, `append(6)`, `append(7)`, `pop()`,
`pop()`: one live element, and the cells 1 and 2 still hold 6 and 7. -/
def popped_buffer : Except Fault (StaticArray Nat 4) := do
  let a0 : StaticArray Nat 4 := { data := fun _ => 0, len := 0 }
  let a1 ← a0.append 5
  let a2 ← a1.append 6
  let a3 ← a2.append 7
  let (_, a4) ← a3.pop
  let (_, a5) ← a4.pop
  pure a5

/-- A buffer of capacity 4 holding the three live elements 5, 6, 7. -/
def sample_buffer : StaticArray Nat 4 :=
  { data := fun i => if i < 3 then i + 5 else 0, len := 3 }

/-- The registry after `init()`, `add<TransformComponent>(4095)` and
`set<TransformComponent>(4095, {1, 2, 3})`, with 4095 still in the free pool. -/
def after_set_on_free_id : EntitySubsystem :=
  { initial with
    transforms := ((ComponentArray.empty).allocated 4095).written 4095 ⟨1, 2, 3⟩ }

/-- The registry after `init()` and `add<TransformComponent>(5)`. -/
def after_add_transform : EntitySubsystem :=
  { initial with transforms := (ComponentArray.empty).allocated 5 }

end Entity

/-! ## Arithmetic of the integer conversions -/

namespace Entity

theorem to_u32_size_pred_succ {n : Nat} (h : n < MAX_ENTITIES) :
    to_u32 (size_pred (n + 1)) = n := by
  unfold to_u32 size_pred; unfold MAX_ENTITIES at h
  rw [if_neg (Nat.succ_ne_zero n)]; omega

theorem to_u32_size_pred_pos {n : Nat} (h0 : 0 < n) (h : n ≤ MAX_ENTITIES) :
    to_u32 (size_pred n) = n - 1 := by
  unfold to_u32 size_pred; unfold MAX_ENTITIES at h
  rw [if_neg (Nat.pos_iff_ne_zero.mp h0)]; omega

namespace ComponentArray

variable {Component : Type}

/-! ## Step lemmas for the store operations -/

theorem alloc_for_active [Inhabited Component] {s : ComponentArray Component} {id : Nat}
    (hid : id ∈ s.active_entities) : s.alloc_for id = .ok s := by
  simp only [alloc_for, hid, if_true]; rfl

theorem alloc_for_fresh [Inhabited Component] {s s' : ComponentArray Component} {id : Nat}
    (hid : id ∉ s.active_entities) (h : s.alloc_for id = .ok s') :
    id < MAX_ENTITIES ∧ s.components.len < MAX_ENTITIES ∧ s' = s.allocated id := by
  simp only [alloc_for, hid, if_false, StaticArray.append, StaticArray.assert_has_space,
    update_mapping, update_owner, in_raw_array, StaticArray.size] at h
  by_cases h1 : s.components.len < MAX_ENTITIES
  · by_cases h2 : id < MAX_ENTITIES
    · simp only [h1, h2, if_true, to_u32_size_pred_succ h1, bind, Except.bind, pure,
        Except.pure] at h
      injection h with h
      exact ⟨h2, h1, h.symm⟩
    · simp only [h1, h2, if_true, if_false, bind, Except.bind, pure, Except.pure] at h
      cases h
  · simp only [h1, if_true, if_false, bind, Except.bind, pure, Except.pure] at h
    cases h

theorem alloc_for_fresh_ok [Inhabited Component] (s : ComponentArray Component) {id : Nat}
    (hid : id ∉ s.active_entities) (h2 : id < MAX_ENTITIES)
    (h1 : s.components.len < MAX_ENTITIES) :
    s.alloc_for id = .ok (s.allocated id) := by
  simp only [alloc_for, hid, if_false, StaticArray.append, StaticArray.assert_has_space,
    update_mapping, update_owner, in_raw_array, StaticArray.size]
  simp only [h1, h2, if_true, to_u32_size_pred_succ h1, bind, Except.bind, pure, Except.pure]
  rfl

theorem remove_from_inactive {s : ComponentArray Component} {id : Nat}
    (hid : id ∉ s.active_entities) : s.remove_from id = .ok s := by
  simp only [remove_from, hid, if_false]; rfl

theorem remove_from_active_ok (s : ComponentArray Component) {id : Nat}
    (hid : id ∈ s.active_entities) (h1 : id < MAX_ENTITIES)
    (h2 : 0 < s.components.len) (h3 : s.components.len ≤ MAX_ENTITIES)
    (h4 : s.indirect id < MAX_ENTITIES)
    (h5 : s.owner (s.components.len - 1) < MAX_ENTITIES) :
    s.remove_from id = .ok (s.removed id) := by
  have h6 : s.components.len - 1 < MAX_ENTITIES := by unfold MAX_ENTITIES at *; omega
  simp only [remove_from, hid, if_true, component_idx_for, owner_of, update_mapping,
    update_owner, in_raw_array, StaticArray.swap_remove, StaticArray.assert_has_items,
    StaticArray.assert_in_bounds, StaticArray.size]
  simp only [to_u32_size_pred_pos h2 h3, h1, h2, h4, h5, h6, Nat.zero_le, true_and, if_true,
    bind, Except.bind, pure, Except.pure]
  rfl

theorem set_active_ok (s : ComponentArray Component) {id : Nat} (val : Component)
    (hid : id ∈ s.active_entities) (h1 : id < MAX_ENTITIES)
    (h2 : 0 < s.components.len) (h4 : s.indirect id < MAX_ENTITIES) :
    s.set id val = .ok (s.written id val) := by
  simp only [set, assert_entity_has_component, component_idx_for, in_raw_array,
    StaticArray.set, StaticArray.assert_has_items, StaticArray.assert_in_bounds]
  simp only [hid, h1, h2, h4, Nat.zero_le, true_and, if_true, bind, Except.bind, pure,
    Except.pure]
  rfl

theorem get_active_ok (s : ComponentArray Component) {id : Nat}
    (hid : id ∈ s.active_entities) (h1 : id < MAX_ENTITIES)
    (h2 : 0 < s.components.len) (h4 : s.indirect id < MAX_ENTITIES) :
    s.get id = .ok (s.components.data (s.indirect id)) := by
  simp only [get, assert_entity_has_component, component_idx_for, in_raw_array,
    StaticArray.get, StaticArray.assert_has_items, StaticArray.assert_in_bounds]
  simp only [hid, h1, h2, h4, Nat.zero_le, true_and, if_true, bind, Except.bind, pure,
    Except.pure]

theorem get_ptr_active_ok (s : ComponentArray Component) {id : Nat}
    (hid : id ∈ s.active_entities) (h1 : id < MAX_ENTITIES)
    (h2 : 0 < s.components.len) (h4 : s.indirect id < MAX_ENTITIES) :
    s.get_ptr id = .ok (s.indirect id) := by
  simp only [get_ptr, assert_entity_has_component, component_idx_for, in_raw_array,
    StaticArray.get_ptr, StaticArray.assert_has_items, StaticArray.assert_in_bounds]
  simp only [hid, h1, h2, h4, Nat.zero_le, true_and, if_true, bind, Except.bind, pure,
    Except.pure]

theorem set_inactive (s : ComponentArray Component) {id : Nat} (val : Component)
    (hid : id ∉ s.active_entities) : s.set id val = .error .assertion := by
  simp only [set, assert_entity_has_component, hid, if_false]; rfl

theorem get_inactive (s : ComponentArray Component) {id : Nat}
    (hid : id ∉ s.active_entities) : s.get id = .error .assertion := by
  simp only [get, assert_entity_has_component, hid, if_false]; rfl

theorem get_ptr_inactive (s : ComponentArray Component) {id : Nat}
    (hid : id ∉ s.active_entities) : s.get_ptr id = .error .assertion := by
  simp only [get_ptr, assert_entity_has_component, hid, if_false]; rfl

end ComponentArray
end Entity

namespace Entity
namespace ComponentArray

variable {Component : Type}

/-! ## The sparse-set invariant and its preservation -/

theorem Inv.len_le {s : ComponentArray Component} (h : Inv s) :
    s.components.len ≤ MAX_ENTITIES := by
  have hsub : s.active_entities ⊆ Finset.range MAX_ENTITIES := by
    intro e he
    exact Finset.mem_range.mpr (h.active e he).1
  have := Finset.card_le_card hsub
  rw [Finset.card_range, h.card] at this
  exact this

theorem Inv.len_lt {s : ComponentArray Component} (h : Inv s) {id : Nat}
    (hid : id ∉ s.active_entities) (hlt : id < MAX_ENTITIES) :
    s.components.len < MAX_ENTITIES := by
  have hsub : insert id s.active_entities ⊆ Finset.range MAX_ENTITIES := by
    intro e he
    rcases Finset.mem_insert.mp he with rfl | he
    · exact Finset.mem_range.mpr hlt
    · exact Finset.mem_range.mpr (h.active e he).1
  have := Finset.card_le_card hsub
  rw [Finset.card_range, Finset.card_insert_of_not_mem hid, h.card] at this
  exact this

theorem Inv.len_pos {s : ComponentArray Component} (h : Inv s) {id : Nat}
    (hid : id ∈ s.active_entities) : 0 < s.components.len :=
  Nat.lt_of_le_of_lt (Nat.zero_le _) (h.active id hid).2.1

theorem Inv.empty [Inhabited Component] : Inv (empty : ComponentArray Component) where
  card := rfl
  active := fun e he => absurd he (Finset.not_mem_empty e)
  slot := fun i hi => absurd hi (Nat.not_lt_zero i)

theorem Inv.allocated [Inhabited Component] {s : ComponentArray Component} (h : Inv s)
    {id : Nat} (hid : id ∉ s.active_entities) (hlt : id < MAX_ENTITIES) :
    Inv (s.allocated id) where
  card := by
    show (insert id s.active_entities).card = s.components.len + 1
    rw [Finset.card_insert_of_not_mem hid, h.card]
  active := by
    intro e he
    show e < MAX_ENTITIES ∧
      Function.update s.indirect id s.components.len e < s.components.len + 1 ∧
      Function.update s.owner s.components.len id
        (Function.update s.indirect id s.components.len e) = e
    rcases Finset.mem_insert.mp he with rfl | he
    · rw [Function.update_same, Function.update_same]
      exact ⟨hlt, Nat.lt_succ_self _, rfl⟩
    · have hne : e ≠ id := fun hh => hid (hh ▸ he)
      obtain ⟨h1, h2, h3⟩ := h.active e he
      rw [Function.update_noteq hne, Function.update_noteq (Nat.ne_of_lt h2)]
      exact ⟨h1, Nat.lt_succ_of_lt h2, h3⟩
  slot := by
    intro i hi
    show Function.update s.owner s.components.len id i ∈ insert id s.active_entities ∧
      Function.update s.indirect id s.components.len
        (Function.update s.owner s.components.len id i) = i
    have hi : i < s.components.len + 1 := hi
    by_cases hil : i = s.components.len
    · subst hil
      rw [Function.update_same, Function.update_same]
      exact ⟨Finset.mem_insert_self _ _, rfl⟩
    · have hi2 : i < s.components.len := by omega
      obtain ⟨h1, h2⟩ := h.slot i hi2
      have hne : s.owner i ≠ id := fun hh => hid (hh ▸ h1)
      rw [Function.update_noteq hil, Function.update_noteq hne]
      exact ⟨Finset.mem_insert_of_mem h1, h2⟩

theorem Inv.removed {s : ComponentArray Component} (h : Inv s)
    {id : Nat} (hid : id ∈ s.active_entities) : Inv (s.removed id) where
  card := by
    show (s.active_entities.erase id).card = s.components.len - 1
    rw [Finset.card_erase_of_mem hid, h.card]
  active := by
    intro e he
    show e < MAX_ENTITIES ∧
      Function.update s.indirect (s.owner (s.components.len - 1)) (s.indirect id) e
        < s.components.len - 1 ∧
      Function.update s.owner (s.indirect id) (s.owner (s.components.len - 1))
        (Function.update s.indirect (s.owner (s.components.len - 1)) (s.indirect id) e) = e
    have he : e ∈ s.active_entities.erase id := he
    obtain ⟨hne, he⟩ := Finset.mem_erase.mp he
    obtain ⟨e1, e2, e3⟩ := h.active e he
    obtain ⟨i1, i2, i3⟩ := h.active id hid
    have hlast := h.slot (s.components.len - 1) (by omega)
    have hri : s.indirect e ≠ s.indirect id := fun hh => hne (by rw [← e3, hh, i3])
    by_cases hsw : e = s.owner (s.components.len - 1)
    · subst hsw
      have : s.indirect id ≠ s.components.len - 1 := by rw [← hlast.2]; exact fun hh => hri hh.symm
      rw [Function.update_same, Function.update_same]
      exact ⟨e1, by omega, rfl⟩
    · have hl : s.indirect e ≠ s.components.len - 1 := by
        intro hh; apply hsw; rw [← hh, e3]
      rw [Function.update_noteq hsw, Function.update_noteq hri]
      exact ⟨e1, by omega, e3⟩
  slot := by
    intro i hi
    show Function.update s.owner (s.indirect id) (s.owner (s.components.len - 1)) i
        ∈ s.active_entities.erase id ∧
      Function.update s.indirect (s.owner (s.components.len - 1)) (s.indirect id)
        (Function.update s.owner (s.indirect id) (s.owner (s.components.len - 1)) i) = i
    have hi : i < s.components.len - 1 := hi
    obtain ⟨i1, i2, i3⟩ := h.active id hid
    have hlast := h.slot (s.components.len - 1) (by omega)
    obtain ⟨o1, o2⟩ := h.slot i (by omega)
    by_cases hir : i = s.indirect id
    · subst hir
      rw [Function.update_same, Function.update_same]
      refine ⟨Finset.mem_erase.mpr ⟨?_, hlast.1⟩, rfl⟩
      intro hh
      have := hlast.2
      rw [hh] at this
      omega
    · rw [Function.update_noteq hir]
      have hne : s.owner i ≠ id := fun hh => hir (by rw [← o2, hh])
      have hsw : s.owner i ≠ s.owner (s.components.len - 1) := by
        intro hh
        have := hlast.2
        rw [← hh, o2] at this
        omega
      rw [Function.update_noteq hsw]
      exact ⟨Finset.mem_erase.mpr ⟨hne, o1⟩, o2⟩

theorem Inv.remove_from_ok {s : ComponentArray Component} (h : Inv s) {id : Nat}
    (hid : id ∈ s.active_entities) : s.remove_from id = .ok (s.removed id) := by
  obtain ⟨i1, i2, _⟩ := h.active id hid
  have hle := h.len_le
  have hlast := h.slot (s.components.len - 1) (by omega)
  exact remove_from_active_ok s hid i1 (by omega) hle (by omega) (h.active _ hlast.1).1

end ComponentArray
end Entity

namespace Entity
namespace ComponentArray

variable {Component : Type}

theorem Inv.written {s : ComponentArray Component} (h : Inv s) (id : Nat) (val : Component) :
    Inv (s.written id val) where
  card := h.card
  active := h.active
  slot := h.slot

theorem Inv.set_ok {s : ComponentArray Component} (h : Inv s) {id : Nat} (val : Component)
    (hid : id ∈ s.active_entities) : s.set id val = .ok (s.written id val) := by
  obtain ⟨i1, i2, _⟩ := h.active id hid
  have hle := h.len_le
  exact set_active_ok s val hid i1 (by omega) (by omega)

theorem Inv.get_ok {s : ComponentArray Component} (h : Inv s) {id : Nat}
    (hid : id ∈ s.active_entities) : s.get id = .ok (s.components.data (s.indirect id)) := by
  obtain ⟨i1, i2, _⟩ := h.active id hid
  have hle := h.len_le
  exact get_active_ok s hid i1 (by omega) (by omega)

theorem Inv.get_ptr_ok {s : ComponentArray Component} (h : Inv s) {id : Nat}
    (hid : id ∈ s.active_entities) : s.get_ptr id = .ok (s.indirect id) := by
  obtain ⟨i1, i2, _⟩ := h.active id hid
  have hle := h.len_le
  exact get_ptr_active_ok s hid i1 (by omega) (by omega)

theorem Inv.alloc_for [Inhabited Component] {s s' : ComponentArray Component} (h : Inv s)
    {id : Nat} (hs : s.alloc_for id = .ok s') : Inv s' := by
  by_cases hid : id ∈ s.active_entities
  · rw [alloc_for_active hid] at hs
    injection hs with hs
    exact hs ▸ h
  · obtain ⟨h1, _, h3⟩ := alloc_for_fresh hid hs
    exact h3 ▸ h.allocated hid h1

theorem Inv.remove_from {s s' : ComponentArray Component} (h : Inv s)
    {id : Nat} (hs : s.remove_from id = .ok s') : Inv s' := by
  by_cases hid : id ∈ s.active_entities
  · rw [h.remove_from_ok hid] at hs
    injection hs with hs
    exact hs ▸ h.removed hid
  · rw [remove_from_inactive hid] at hs
    injection hs with hs
    exact hs ▸ h

theorem Inv.set {s s' : ComponentArray Component} (h : Inv s)
    {id : Nat} {val : Component} (hs : s.set id val = .ok s') : Inv s' := by
  by_cases hid : id ∈ s.active_entities
  · rw [h.set_ok val hid] at hs
    injection hs with hs
    exact hs ▸ h.written id val
  · rw [set_inactive s val hid] at hs
    cases hs

theorem Reachable.inv [Inhabited Component] {s : ComponentArray Component}
    (h : Reachable s) : Inv s := by
  induction h with
  | empty => exact Inv.empty
  | alloc_for id _ _ hs ih => exact ih.alloc_for hs
  | remove_from id _ _ hs ih => exact ih.remove_from hs
  | set id val _ _ hs ih => exact ih.set hs

/-- After a removal every other active entity reads the cell it read before. -/
theorem Inv.removed_data {s : ComponentArray Component} (h : Inv s) {id e : Nat}
    (hid : id ∈ s.active_entities) (he : e ∈ s.active_entities) (hne : e ≠ id) :
    (s.removed id).components.data ((s.removed id).indirect e) =
      s.components.data (s.indirect e) := by
  show Function.update
        (Function.update s.components.data (s.indirect id)
          (s.components.data (s.components.len - 1)))
        (s.components.len - 1) (s.components.data (s.indirect id))
        (Function.update s.indirect (s.owner (s.components.len - 1)) (s.indirect id) e) =
      s.components.data (s.indirect e)
  obtain ⟨e1, e2, e3⟩ := h.active e he
  obtain ⟨i1, i2, i3⟩ := h.active id hid
  have hlast := h.slot (s.components.len - 1) (by omega)
  have hri : s.indirect e ≠ s.indirect id := fun hh => hne (by rw [← e3, hh, i3])
  by_cases hsw : e = s.owner (s.components.len - 1)
  · subst hsw
    have hr : s.indirect id ≠ s.components.len - 1 := by
      rw [← hlast.2]; exact fun hh => hri hh.symm
    rw [Function.update_same, Function.update_noteq hr, Function.update_same, hlast.2]
  · have hl : s.indirect e ≠ s.components.len - 1 := by
      intro hh; apply hsw; rw [← hh, e3]
    rw [Function.update_noteq hsw, Function.update_noteq hl, Function.update_noteq hri]

theorem Inv.rows_of_active {s : ComponentArray Component} (h : Inv s) {id : Nat}
    (hid : id ∈ s.active_entities) : s.rows_of id = {s.indirect id} := by
  obtain ⟨_, i2, i3⟩ := h.active id hid
  ext i
  simp only [rows_of, Finset.mem_filter, Finset.mem_range, Finset.mem_singleton]
  constructor
  · rintro ⟨hi, ho⟩
    rw [← ho, (h.slot i hi).2]
  · rintro rfl
    exact ⟨i2, i3⟩

end ComponentArray
end Entity

namespace Entity
namespace ComponentArray

variable {Component : Type}

/-! ## A concrete reachable store -/

theorem sample_store_reachable : Reachable sample_store := by
  have r0 : Reachable (empty : ComponentArray Nat) := Reachable.empty
  have r1 := Reachable.alloc_for 1 r0 (by decide)
    (alloc_for_fresh_ok _ (by decide) (by decide) (by decide))
  have r2 := Reachable.alloc_for 2 r1 (by decide)
    (alloc_for_fresh_ok _ (by decide) (by decide) (by decide))
  have r3 := Reachable.alloc_for 3 r2 (by decide)
    (alloc_for_fresh_ok _ (by decide) (by decide) (by decide))
  have r4 := Reachable.set 1 10 r3 (by decide) (r3.inv.set_ok 10 (by decide))
  have r5 := Reachable.set 2 20 r4 (by decide) (r4.inv.set_ok 20 (by decide))
  exact Reachable.set 3 30 r5 (by decide) (r5.inv.set_ok 30 (by decide))

/-! ## Claims about one Component Store -/

/-- C1 (swap-remove correctness).  In a reachable store, removing an active
entity `e` succeeds, leaves `e` inactive, and every other entity that was
active stays active and `get` returns for it the value it returned before. -/
theorem C1_swap_remove_correct [Inhabited Component] (s : ComponentArray Component)
    (hs : Reachable s) (e : Nat) (he : e ∈ s.active_entities) :
    ∃ s', s.remove_from e = .ok s' ∧ e ∉ s'.active_entities ∧
      ∀ e', e' ∈ s.active_entities → e' ≠ e →
        e' ∈ s'.active_entities ∧ ∃ v, s.get e' = .ok v ∧ s'.get e' = .ok v := by
  have hinv := hs.inv
  refine ⟨s.removed e, hinv.remove_from_ok he, Finset.not_mem_erase e _, ?_⟩
  intro e' he' hne
  have hmem : e' ∈ (s.removed e).active_entities := Finset.mem_erase.mpr ⟨hne, he'⟩
  refine ⟨hmem, s.components.data (s.indirect e'), hinv.get_ok he', ?_⟩
  rw [(hinv.removed he).get_ok hmem, hinv.removed_data he he' hne]

theorem C1_swap_remove_correct_witness :
    Reachable sample_store ∧ 1 ∈ sample_store.active_entities ∧
    ∃ s', sample_store.remove_from 1 = .ok s' ∧ 1 ∉ s'.active_entities ∧
      ∀ e', e' ∈ sample_store.active_entities → e' ≠ 1 →
        e' ∈ s'.active_entities ∧ ∃ v, sample_store.get e' = .ok v ∧ s'.get e' = .ok v :=
  ⟨sample_store_reachable, by decide,
    C1_swap_remove_correct sample_store sample_store_reachable 1 (by decide)⟩

/-- C2 (round trip).  In a reachable store, `set(e, v)` on an active entity
succeeds and a following `get(e)` returns exactly `v`. -/
theorem C2_set_get_round_trip [Inhabited Component] (s : ComponentArray Component)
    (hs : Reachable s) (e : Nat) (he : e ∈ s.active_entities) (v : Component) :
    ∃ s', s.set e v = .ok s' ∧ s'.get e = .ok v := by
  have hinv := hs.inv
  refine ⟨s.written e v, hinv.set_ok v he, ?_⟩
  rw [(hinv.written e v).get_ok he]
  show Except.ok (Function.update s.components.data (s.indirect e) v (s.indirect e)) = _
  rw [Function.update_same]

theorem C2_set_get_round_trip_witness :
    Reachable sample_store ∧ 2 ∈ sample_store.active_entities ∧
    ∃ s', sample_store.set 2 77 = .ok s' ∧ s'.get 2 = .ok 77 :=
  ⟨sample_store_reachable, by decide,
    C2_set_get_round_trip sample_store sample_store_reachable 2 (by decide) 77⟩

/-- C6 (idempotence).  In every store, `alloc_for` on an active entity returns
the store unchanged and `remove_from` on an inactive entity (already removed,
or never added, also when the store is empty) returns the store unchanged;
neither call fails.  In a reachable store an active entity owns exactly one
dense row. -/
theorem C6_idempotence [Inhabited Component] (s : ComponentArray Component) :
    (∀ e, e ∈ s.active_entities → s.alloc_for e = .ok s) ∧
    (∀ e, e ∉ s.active_entities → s.remove_from e = .ok s) ∧
    (Reachable s → ∀ e, e ∈ s.active_entities → (s.rows_of e).card = 1) := by
  refine ⟨fun e he => alloc_for_active he, fun e he => remove_from_inactive he, ?_⟩
  intro hs e he
  rw [hs.inv.rows_of_active he, Finset.card_singleton]

theorem C6_idempotence_witness :
    Reachable sample_store ∧ 3 ∈ sample_store.active_entities ∧
    7 ∉ sample_store.active_entities ∧
    7 ∉ (empty : ComponentArray Nat).active_entities ∧
    (sample_store.alloc_for 3 = .ok sample_store ∧
      sample_store.remove_from 7 = .ok sample_store ∧
      (sample_store.rows_of 3).card = 1 ∧
      (empty : ComponentArray Nat).remove_from 7 = .ok empty) :=
  ⟨sample_store_reachable, by decide, by decide, by decide,
    (C6_idempotence sample_store).1 3 (by decide),
    (C6_idempotence sample_store).2.1 7 (by decide),
    (C6_idempotence sample_store).2.2 sample_store_reachable 3 (by decide),
    (C6_idempotence (empty : ComponentArray Nat)).2.1 7 (by decide)⟩

/-- C10 (access fails exactly on inactive entities).  In a reachable store:
when the identifier is not active, `set`, `get` and `get_ptr` all stop on the
store's assertion; when it is active, all three return, so no assertion of the
store or of the underlying buffer fires.  The identifier need not even be below
`MAX_ENTITIES` for this. -/
theorem C10_access_fails_iff_inactive [Inhabited Component] (s : ComponentArray Component)
    (hs : Reachable s) (id : Nat) (v : Component) :
    (id ∉ s.active_entities →
      s.set id v = .error .assertion ∧ s.get id = .error .assertion ∧
      s.get_ptr id = .error .assertion) ∧
    (id ∈ s.active_entities →
      (∃ s', s.set id v = .ok s') ∧ (∃ c, s.get id = .ok c) ∧ (∃ p, s.get_ptr id = .ok p)) := by
  have hinv := hs.inv
  exact ⟨fun h => ⟨set_inactive s v h, get_inactive s h, get_ptr_inactive s h⟩,
    fun h => ⟨⟨_, hinv.set_ok v h⟩, ⟨_, hinv.get_ok h⟩, ⟨_, hinv.get_ptr_ok h⟩⟩⟩

theorem C10_access_fails_iff_inactive_witness :
    Reachable sample_store ∧
    ((5 ∉ sample_store.active_entities →
      sample_store.set 5 9 = .error .assertion ∧ sample_store.get 5 = .error .assertion ∧
      sample_store.get_ptr 5 = .error .assertion) ∧
    (5 ∈ sample_store.active_entities →
      (∃ s', sample_store.set 5 9 = .ok s') ∧ (∃ c, sample_store.get 5 = .ok c) ∧
      (∃ p, sample_store.get_ptr 5 = .ok p))) :=
  ⟨sample_store_reachable,
    C10_access_fails_iff_inactive sample_store sample_store_reachable 5 9⟩

end ComponentArray
end Entity

namespace Entity

/-! ## The bounded buffer: step lemmas and the list of live elements -/

namespace StaticArray

variable {DataType : Type} {Capacity : Nat}

theorem append_ok (a : StaticArray DataType Capacity) (item : DataType)
    (h : a.len < Capacity) :
    a.append item = .ok { data := Function.update a.data a.len item, len := a.len + 1 } := by
  simp only [append, assert_has_space, h, if_true, bind, Except.bind, pure, Except.pure]

theorem append_full (a : StaticArray DataType Capacity) (item : DataType)
    (h : ¬ a.len < Capacity) : a.append item = .error .assertion := by
  simp only [append, assert_has_space, h, if_false, bind, Except.bind]

theorem pop_ok (a : StaticArray DataType Capacity) (h : 0 < a.len) :
    a.pop = .ok (a.data (a.len - 1), { a with len := a.len - 1 }) := by
  simp only [pop, assert_has_items, h, if_true, bind, Except.bind, pure, Except.pure]

theorem pop_empty (a : StaticArray DataType Capacity) (h : ¬ 0 < a.len) :
    a.pop = .error .assertion := by
  simp only [pop, assert_has_items, h, if_false, bind, Except.bind]

theorem toList_length (a : StaticArray DataType Capacity) : a.toList.length = a.len := by
  simp [toList]

theorem toList_appended (a : StaticArray DataType Capacity) (item : DataType) :
    ({ data := Function.update a.data a.len item, len := a.len + 1 } :
      StaticArray DataType Capacity).toList = a.toList ++ [item] := by
  simp only [toList, List.range_succ, List.map_append, List.map_cons, List.map_nil,
    Function.update_same]
  congr 1
  apply List.map_congr_left
  intro i hi
  exact Function.update_noteq (Nat.ne_of_lt (List.mem_range.mp hi)) _ _

theorem toList_popped (a : StaticArray DataType Capacity) (h : 0 < a.len) :
    a.toList = ({ a with len := a.len - 1 } : StaticArray DataType Capacity).toList
      ++ [a.data (a.len - 1)] := by
  obtain ⟨n, hn⟩ : ∃ n, a.len = n + 1 := ⟨a.len - 1, by omega⟩
  simp only [toList, hn, List.range_succ, List.map_append, List.map_cons, List.map_nil,
    Nat.add_sub_cancel]

end StaticArray

/-! ## `init` on the fresh registry -/

theorem init_from_eq (k : Nat) : ∀ (i : Nat) (s : EntitySubsystem),
    i + k = MAX_ENTITIES → s.free_entities.len = i →
    init_from i s = .ok { s with free_entities :=
      { data := fun j => if i ≤ j ∧ j < MAX_ENTITIES then j else s.free_entities.data j,
        len := MAX_ENTITIES } } := by
  induction k with
  | zero =>
    intro i s hik hlen
    have hi : ¬ i < MAX_ENTITIES := by omega
    rw [init_from, if_neg hi]
    obtain ⟨⟨d, l⟩, t, hh⟩ := s
    have hl : l = MAX_ENTITIES := by simp only at hlen; omega
    subst hl
    have hd : (fun j => if i ≤ j ∧ j < MAX_ENTITIES then j else d j) = d := by
      funext j
      have : ¬ (i ≤ j ∧ j < MAX_ENTITIES) := by omega
      simp only [this, if_false]
    simp only [hd]
    rfl
  | succ k ih =>
    intro i s hik hlen
    subst hlen
    have hlt : s.free_entities.len < MAX_ENTITIES := by omega
    rw [init_from, if_pos hlt, StaticArray.append_ok _ _ hlt]
    simp only [bind, Except.bind]
    rw [ih (s.free_entities.len + 1) _ (by omega) rfl]
    congr 3
    funext j
    by_cases hj : j = s.free_entities.len
    · have h1 : ¬ (s.free_entities.len + 1 ≤ j ∧ j < MAX_ENTITIES) := by omega
      have h2 : s.free_entities.len ≤ j ∧ j < MAX_ENTITIES := by omega
      rw [if_neg h1, if_pos h2, hj]
      show Function.update s.free_entities.data s.free_entities.len s.free_entities.len
        s.free_entities.len = _
      rw [Function.update_same]
    · show (if s.free_entities.len + 1 ≤ j ∧ j < MAX_ENTITIES then j
          else Function.update s.free_entities.data s.free_entities.len s.free_entities.len j) = _
      rw [Function.update_noteq hj]
      by_cases hc : s.free_entities.len ≤ j ∧ j < MAX_ENTITIES
      · have h1 : s.free_entities.len + 1 ≤ j ∧ j < MAX_ENTITIES := by omega
        rw [if_pos h1, if_pos hc]
      · have h1 : ¬ (s.free_entities.len + 1 ≤ j ∧ j < MAX_ENTITIES) := by omega
        rw [if_neg h1, if_neg hc]

theorem init_sys : init sys = .ok initial := by
  have h := init_from_eq MAX_ENTITIES 0 sys (by omega) rfl
  rw [init, h]
  congr 3
  funext j
  by_cases hj : j < MAX_ENTITIES
  · simp [hj]
  · simp [hj, sys]

theorem initial_toList : initial.free_entities.toList = List.range MAX_ENTITIES := by
  show (List.range MAX_ENTITIES).map (fun j => if j < MAX_ENTITIES then j else 0) = _
  conv_rhs => rw [← List.map_id (List.range MAX_ENTITIES)]
  apply List.map_congr_left
  intro j hj
  simp [List.mem_range.mp hj]

end Entity

namespace Entity

/-! ## Step lemmas for the registry operations -/

/-- The registry after a successful `alloc_entity`. -/
theorem alloc_entity_ok (r : EntitySubsystem) (h : 0 < r.free_entities.len) :
    alloc_entity r = .ok (r.free_entities.data (r.free_entities.len - 1),
      { r with free_entities := { r.free_entities with len := r.free_entities.len - 1 } }) := by
  rw [alloc_entity, StaticArray.pop_ok _ h]
  rfl

theorem alloc_entity_empty (r : EntitySubsystem) (h : ¬ 0 < r.free_entities.len) :
    alloc_entity r = .error .assertion := by
  rw [alloc_entity, StaticArray.pop_empty _ h]
  rfl

theorem alloc_entity_inv {r r' : EntitySubsystem} {e : Nat}
    (h : alloc_entity r = .ok (e, r')) :
    0 < r.free_entities.len ∧ e = r.free_entities.data (r.free_entities.len - 1) ∧
    r' = { r with free_entities := { r.free_entities with len := r.free_entities.len - 1 } } := by
  by_cases hl : 0 < r.free_entities.len
  · rw [alloc_entity_ok r hl] at h
    injection h with h
    injection h with h1 h2
    exact ⟨hl, h1.symm, h2.symm⟩
  · rw [alloc_entity_empty r hl] at h
    cases h

theorem add_inv {k : ComponentKind} {id : Nat} {r r' : EntitySubsystem}
    (h : add k id r = .ok r') :
    ∃ a, (r.get_component_array k).alloc_for id = .ok a ∧ r' = r.put_component_array k a := by
  unfold add at h
  cases hc : (r.get_component_array k).alloc_for id with
  | error e => rw [hc] at h; cases h
  | ok a =>
    rw [hc] at h
    injection h with h
    exact ⟨a, rfl, h.symm⟩

theorem set_inv {k : ComponentKind} {id : Nat} {val : k.Component} {r r' : EntitySubsystem}
    (h : set k id val r = .ok r') :
    ∃ a, (r.get_component_array k).set id val = .ok a ∧ r' = r.put_component_array k a := by
  unfold set at h
  cases hc : (r.get_component_array k).set id val with
  | error e => rw [hc] at h; cases h
  | ok a =>
    rw [hc] at h
    injection h with h
    exact ⟨a, rfl, h.symm⟩

/-! ## The registry invariant -/

theorem RInv.len_add_card {r : EntitySubsystem} {u : Finset Nat} (h : RInv r u) :
    r.free_entities.len + u.card = MAX_ENTITIES := by
  have hd : Disjoint r.free_entities.toList.toFinset u := by
    rw [Finset.disjoint_left]
    intro x hx
    exact h.free x (List.mem_toFinset.mp hx)
  have hu : r.free_entities.toList.toFinset ∪ u = Finset.range MAX_ENTITIES := by
    ext x
    rw [Finset.mem_union, List.mem_toFinset, Finset.mem_range]
    exact (h.cover x).symm
  have hc := Finset.card_union_of_disjoint hd
  rw [hu, Finset.card_range, List.toFinset_card_of_nodup h.nodup,
    StaticArray.toList_length] at hc
  exact hc.symm

theorem RInv.initial : RInv initial ∅ where
  nodup := by rw [initial_toList]; exact List.nodup_range _
  free := fun x _ => Finset.not_mem_empty x
  cover := by
    intro id
    rw [initial_toList, List.mem_range]
    simp
  transforms := ComponentArray.Inv.empty
  healths := ComponentArray.Inv.empty

theorem RInv.put_component_array {r : EntitySubsystem} {u : Finset Nat} (h : RInv r u)
    (k : ComponentKind) {a : ComponentArray k.Component} (ha : a.Inv) :
    RInv (r.put_component_array k a) u := by
  cases k with
  | Transform => exact ⟨h.nodup, h.free, h.cover, ha, h.healths⟩
  | Health => exact ⟨h.nodup, h.free, h.cover, h.transforms, ha⟩

theorem RInv.get_component_array {r : EntitySubsystem} {u : Finset Nat} (h : RInv r u)
    (k : ComponentKind) : (r.get_component_array k).Inv := by
  cases k with
  | Transform => exact h.transforms
  | Health => exact h.healths

theorem RInv.add {r r' : EntitySubsystem} {u : Finset Nat} (h : RInv r u)
    {k : ComponentKind} {id : Nat} (hs : add k id r = .ok r') : RInv r' u := by
  obtain ⟨a, ha, rfl⟩ := add_inv hs
  exact h.put_component_array k ((h.get_component_array k).alloc_for ha)

theorem RInv.registry_set {r r' : EntitySubsystem} {u : Finset Nat} (h : RInv r u)
    {k : ComponentKind} {id : Nat} {val : k.Component} (hs : set k id val r = .ok r') :
    RInv r' u := by
  obtain ⟨a, ha, rfl⟩ := set_inv hs
  exact h.put_component_array k ((h.get_component_array k).set ha)

theorem RInv.alloc_entity {r r' : EntitySubsystem} {u : Finset Nat} (h : RInv r u)
    {e : Nat} (hs : alloc_entity r = .ok (e, r')) : RInv r' (insert e u) := by
  obtain ⟨hl, rfl, rfl⟩ := alloc_entity_inv hs
  have hsplit := StaticArray.toList_popped r.free_entities hl
  have hnd := h.nodup
  rw [hsplit, List.nodup_append] at hnd
  obtain ⟨hnd1, -, hdis⟩ := hnd
  have hnot : r.free_entities.data (r.free_entities.len - 1) ∉
      ({ r.free_entities with len := r.free_entities.len - 1 } : EntityArray).toList :=
    fun hm => hdis hm (List.mem_singleton_self _)
  refine ⟨hnd1, ?_, ?_, h.transforms, h.healths⟩
  · intro x hx hxu
    rcases Finset.mem_insert.mp hxu with rfl | hxu
    · exact hnot hx
    · exact h.free x (by rw [hsplit]; exact List.mem_append_left _ hx) hxu
  · intro id
    rw [h.cover id, hsplit, List.mem_append, List.mem_singleton, Finset.mem_insert]
    tauto

theorem RInv.free_entity_ok {r : EntitySubsystem} {u : Finset Nat} (h : RInv r u)
    {id : Nat} (hid : id ∈ u) :
    ∃ t, r.transforms.remove_from id = .ok t ∧ t.Inv ∧
      t.active_entities = r.transforms.active_entities.erase id ∧
      free_entity id r = .ok { r with
        transforms := t,
        free_entities := { data := Function.update r.free_entities.data r.free_entities.len id,
                           len := r.free_entities.len + 1 } } := by
  have hcard := h.len_add_card
  have hpos : 0 < u.card := Finset.card_pos.mpr ⟨id, hid⟩
  have hlt : r.free_entities.len < MAX_ENTITIES := by omega
  by_cases ha : id ∈ r.transforms.active_entities
  · refine ⟨r.transforms.removed id, h.transforms.remove_from_ok ha, h.transforms.removed ha,
      rfl, ?_⟩
    rw [free_entity, h.transforms.remove_from_ok ha]
    simp only [bind, Except.bind]
    rw [StaticArray.append_ok _ _ hlt]
    rfl
  · refine ⟨r.transforms, ComponentArray.remove_from_inactive ha, h.transforms,
      (Finset.erase_eq_of_not_mem ha).symm, ?_⟩
    rw [free_entity, ComponentArray.remove_from_inactive ha]
    simp only [bind, Except.bind]
    rw [StaticArray.append_ok _ _ hlt]
    rfl

theorem RInv.free_entity {r r' : EntitySubsystem} {u : Finset Nat} (h : RInv r u)
    {id : Nat} (hid : id ∈ u) (hs : free_entity id r = .ok r') : RInv r' (u.erase id) := by
  obtain ⟨t, -, ht, -, hok⟩ := h.free_entity_ok hid
  rw [hok] at hs
  injection hs with hs
  subst hs
  have hl := StaticArray.toList_appended r.free_entities id
  have hnot : id ∉ r.free_entities.toList := fun hm => h.free id hm hid
  refine ⟨?_, ?_, ?_, ht, h.healths⟩
  · show (StaticArray.toList _).Nodup
    rw [hl]
    exact List.Nodup.append h.nodup (List.nodup_singleton id)
      (by
        intro x hx hx'
        rw [List.mem_singleton] at hx'
        exact hnot (hx' ▸ hx))
  · intro x hx
    have hx : x ∈ StaticArray.toList _ := hx
    rw [hl, List.mem_append, List.mem_singleton] at hx
    rcases hx with hx | rfl
    · exact fun hh => h.free x hx (Finset.mem_of_mem_erase hh)
    · exact Finset.not_mem_erase _ _
  · intro x
    show x < MAX_ENTITIES ↔ (x ∈ StaticArray.toList _ ∨ x ∈ u.erase id)
    rw [hl, h.cover x, List.mem_append, List.mem_singleton, Finset.mem_erase]
    constructor
    · rintro (hx | hx)
      · exact Or.inl (Or.inl hx)
      · by_cases hxi : x = id
        · exact Or.inl (Or.inr hxi)
        · exact Or.inr ⟨hxi, hx⟩
    · rintro ((hx | rfl) | ⟨-, hx⟩)
      · exact Or.inl hx
      · exact Or.inr hid
      · exact Or.inr hx

end Entity

namespace Entity

theorem bind_ok_inv {α β : Type} {x : Except Fault α} {f : α → Except Fault β} {b : β}
    (h : (x >>= f) = .ok b) : ∃ a, x = .ok a ∧ f a = .ok b := by
  cases x with
  | error e => cases h
  | ok a => exact ⟨a, rfl, h⟩

/-! ## Adding components through the registry -/

theorem ComponentArray.Inv.alloc_for_ok {Component : Type} [Inhabited Component]
    {s : ComponentArray Component} (h : s.Inv) {id : Nat} (hid : id < MAX_ENTITIES) :
    ∃ s', s.alloc_for id = .ok s' ∧ s'.active_entities = insert id s.active_entities := by
  by_cases ha : id ∈ s.active_entities
  · exact ⟨s, ComponentArray.alloc_for_active ha, (Finset.insert_eq_of_mem ha).symm⟩
  · exact ⟨s.allocated id, ComponentArray.alloc_for_fresh_ok s ha hid (h.len_lt ha hid), rfl⟩

theorem get_put_component_array (r : EntitySubsystem) (k k' : ComponentKind)
    (a : ComponentArray k.Component) :
    ((r.put_component_array k a).get_component_array k').active_entities =
      if k' = k then a.active_entities else (r.get_component_array k').active_entities := by
  cases k <;> cases k' <;> rfl

theorem put_component_array_free (r : EntitySubsystem) (k : ComponentKind)
    (a : ComponentArray k.Component) :
    (r.put_component_array k a).free_entities = r.free_entities := by
  cases k <;> rfl

theorem RInv.add_ok {r : EntitySubsystem} {u : Finset Nat} (h : RInv r u)
    (k : ComponentKind) {id : Nat} (hid : id < MAX_ENTITIES) :
    ∃ r', Entity.add k id r = .ok r' ∧ r'.free_entities = r.free_entities ∧
      id ∈ (r'.get_component_array k).active_entities ∧
      ∀ k' x, x ∈ (r.get_component_array k').active_entities →
        x ∈ (r'.get_component_array k').active_entities := by
  obtain ⟨a, ha, hact⟩ := (h.get_component_array k).alloc_for_ok hid
  refine ⟨r.put_component_array k a, ?_, put_component_array_free r k a, ?_, ?_⟩
  · rw [Entity.add, ha]; rfl
  · rw [get_put_component_array, if_pos rfl, hact]
    exact Finset.mem_insert_self _ _
  · intro k' x hx
    rw [get_put_component_array]
    by_cases hk : k' = k
    · subst hk
      rw [if_pos rfl, hact]
      exact Finset.mem_insert_of_mem hx
    · rw [if_neg hk]; exact hx

theorem RInv.apply_archetype {types : List ComponentKind} {e : Nat} :
    ∀ {r r' : EntitySubsystem} {u : Finset Nat}, RInv r u →
      Archetype.apply_archetype types e r = .ok r' → RInv r' u := by
  induction types with
  | nil =>
    intro r r' u h hs
    injection hs with hs
    exact hs ▸ h
  | cons k ks ih =>
    intro r r' u h hs
    obtain ⟨r1, h1, h2⟩ := bind_ok_inv hs
    exact ih (h.add h1) h2

theorem RInv.apply_archetype_ok (types : List ComponentKind) {e : Nat}
    (he : e < MAX_ENTITIES) :
    ∀ {r : EntitySubsystem} {u : Finset Nat}, RInv r u →
      ∃ r', Archetype.apply_archetype types e r = .ok r' ∧
        r'.free_entities = r.free_entities ∧
        (∀ k ∈ types, e ∈ (r'.get_component_array k).active_entities) ∧
        ∀ k x, x ∈ (r.get_component_array k).active_entities →
          x ∈ (r'.get_component_array k).active_entities := by
  induction types with
  | nil =>
    intro r u _
    exact ⟨r, rfl, rfl, fun k hk => absurd hk (List.not_mem_nil k), fun _ _ hx => hx⟩
  | cons k ks ih =>
    intro r u h
    obtain ⟨r1, h1, hf1, hm1, hmono1⟩ := h.add_ok k he
    obtain ⟨r2, h2, hf2, hm2, hmono2⟩ := ih (h.add h1)
    refine ⟨r2, ?_, hf2.trans hf1, ?_, fun k' x hx => hmono2 k' x (hmono1 k' x hx)⟩
    · show (Entity.add k e r >>= fun s1 => Archetype.apply_archetype ks e s1) = _
      rw [h1]; exact h2
    · intro k' hk'
      rcases List.mem_cons.mp hk' with rfl | hk'
      · exact hmono2 _ _ hm1
      · exact hm2 k' hk'

theorem archetype_alloc_inv {types : List ComponentKind} {r r' : EntitySubsystem} {e : Nat}
    (h : Archetype.alloc types r = .ok (e, r')) :
    ∃ r1, alloc_entity r = .ok (e, r1) ∧ Archetype.apply_archetype types e r1 = .ok r' := by
  obtain ⟨⟨e1, r1⟩, h1, h2⟩ := bind_ok_inv h
  obtain ⟨r2, h3, h4⟩ := bind_ok_inv h2
  injection h4 with h4
  injection h4 with h5 h6
  subst h5; subst h6
  exact ⟨r1, h1, h3⟩

theorem Reachable.rinv {r : EntitySubsystem} {u : Finset Nat} (h : Reachable r u) :
    RInv r u := by
  induction h with
  | init hi =>
    rw [init_sys] at hi
    injection hi with hi
    exact hi ▸ RInv.initial
  | alloc_entity _ hs ih => exact ih.alloc_entity hs
  | free_entity id _ hid hs ih => exact ih.free_entity hid hs
  | add k id _ hs ih => exact ih.add hs
  | set k id val _ hs ih => exact ih.registry_set hs
  | archetype_alloc types _ hs ih =>
    obtain ⟨r1, h1, h2⟩ := archetype_alloc_inv hs
    exact (ih.alloc_entity h1).apply_archetype h2

theorem PoolReachable.reachable {r : EntitySubsystem} {u : Finset Nat}
    (h : PoolReachable r u) : Reachable r u := by
  induction h with
  | init hi => exact Reachable.init hi
  | alloc_entity _ hs ih => exact Reachable.alloc_entity ih hs
  | free_entity id _ hid hs ih => exact Reachable.free_entity id ih hid hs

/-! ## The archetype query -/

theorem mem_set_union (x : Nat) : ∀ xs ys : List Nat,
    x ∈ set_union xs ys ↔ x ∈ xs ∨ x ∈ ys := by
  intro xs ys
  induction xs, ys using set_union.induct with
  | case1 ys => simp [set_union]
  | case2 a as => simp [set_union]
  | case3 a as b bs hlt ih =>
    rw [set_union, if_pos hlt, List.mem_cons, ih]
    simp only [List.mem_cons]
    tauto
  | case4 a as b bs h1 hlt ih =>
    rw [set_union, if_neg h1, if_pos hlt, List.mem_cons, ih]
    simp only [List.mem_cons]
    tauto
  | case5 a as b bs h1 h2 ih =>
    have hab : a = b := by omega
    rw [set_union, if_neg h1, if_neg h2, List.mem_cons, ih]
    simp only [List.mem_cons]
    subst hab
    tauto

theorem foldl_insert_eq (l : List Nat) : ∀ s : Finset Nat,
    l.foldl (fun acc x => insert x acc) s = s ∪ l.toFinset := by
  induction l with
  | nil => intro s; simp
  | cons a l ih =>
    intro s
    rw [List.foldl_cons, ih]
    ext x
    simp only [Finset.mem_union, Finset.mem_insert, List.toFinset_cons]
    tauto

theorem set_union_into_eq (entities second : EntitySet) :
    set_union_into entities second = entities ∪ second := by
  rw [set_union_into, foldl_insert_eq]
  ext x
  simp only [Finset.mem_union, List.mem_toFinset, mem_set_union, Finset.mem_sort]
  tauto

theorem mem_find (x : Nat) (s : EntitySubsystem) : ∀ (types : List ComponentKind)
    (out : EntitySet),
    x ∈ Archetype.find types s out ↔
      x ∈ out ∨ ∃ k ∈ types, x ∈ (s.get_component_array k).active_entities := by
  intro types
  induction types with
  | nil => intro out; simp [Archetype.find]
  | cons k ks ih =>
    intro out
    rw [Archetype.find, ih, set_union_into_eq, Finset.mem_union]
    simp only [List.mem_cons, exists_eq_or_imp]
    tauto

end Entity

namespace Entity

/-! ## Allocation through the registry -/

theorem RInv.mem_pool_lt {r : EntitySubsystem} {u : Finset Nat} (h : RInv r u) {x : Nat}
    (hx : x ∈ r.free_entities.toList) : x < MAX_ENTITIES :=
  (h.cover x).mpr (Or.inl hx)

theorem last_mem_toList (r : EntitySubsystem) (hne : 0 < r.free_entities.len) :
    r.free_entities.data (r.free_entities.len - 1) ∈ r.free_entities.toList := by
  rw [StaticArray.toList_popped _ hne]
  exact List.mem_append_right _ (List.mem_singleton_self _)

theorem RInv.archetype_alloc_ok {r : EntitySubsystem} {u : Finset Nat} (h : RInv r u)
    (hne : 0 < r.free_entities.len) (types : List ComponentKind) :
    ∃ r', Archetype.alloc types r =
        .ok (r.free_entities.data (r.free_entities.len - 1), r') ∧
      r'.free_entities = { r.free_entities with len := r.free_entities.len - 1 } ∧
      (∀ k ∈ types, r.free_entities.data (r.free_entities.len - 1) ∈
        (r'.get_component_array k).active_entities) ∧
      ∀ k x, x ∈ (r.get_component_array k).active_entities →
        x ∈ (r'.get_component_array k).active_entities := by
  have halloc := alloc_entity_ok r hne
  have hlt := h.mem_pool_lt (last_mem_toList r hne)
  obtain ⟨r', h1, h2, h3, h4⟩ := (h.alloc_entity halloc).apply_archetype_ok types hlt
  refine ⟨r', ?_, h2, h3, h4⟩
  rw [Archetype.alloc, halloc]
  show (Archetype.apply_archetype types _ _ >>= fun s2 => pure (_, s2)) = _
  rw [h1]
  rfl

theorem RInv.not_mem_popped {r : EntitySubsystem} {u : Finset Nat} (h : RInv r u)
    (hne : 0 < r.free_entities.len) :
    r.free_entities.data (r.free_entities.len - 1) ∉
      ({ r.free_entities with len := r.free_entities.len - 1 } : EntityArray).toList := by
  have hnd := h.nodup
  rw [StaticArray.toList_popped _ hne, List.nodup_append] at hnd
  exact fun hm => hnd.2.2 hm (List.mem_singleton_self _)

theorem alloc_many_ok (n : Nat) : ∀ {r : EntitySubsystem} {u : Finset Nat},
    Reachable r u → n ≤ r.free_entities.len →
    ∃ es r', alloc_many n r = .ok (es, r') ∧ es.length = n ∧
      r'.free_entities.len = r.free_entities.len - n ∧ Reachable r' (es.toFinset ∪ u) := by
  induction n with
  | zero =>
    intro r u h _
    exact ⟨[], r, rfl, rfl, rfl, by simpa using h⟩
  | succ n ih =>
    intro r u h hn
    have hne : 0 < r.free_entities.len := by omega
    have h1 := alloc_entity_ok r hne
    obtain ⟨es, r', h2, h3, h4, h5⟩ := ih (Reachable.alloc_entity h h1)
      (by show n ≤ r.free_entities.len - 1; omega)
    have h4' : r'.free_entities.len = r.free_entities.len - (n + 1) := by
      rw [h4]; show r.free_entities.len - 1 - n = _; omega
    refine ⟨r.free_entities.data (r.free_entities.len - 1) :: es, r', ?_,
      by rw [List.length_cons, h3], h4', ?_⟩
    · rw [alloc_many, h1]
      show (alloc_many n _ >>= fun p =>
        pure (r.free_entities.data (r.free_entities.len - 1) :: p.1, p.2)) = _
      rw [h2]
      rfl
    · have : (r.free_entities.data (r.free_entities.len - 1) :: es).toFinset ∪ u =
          es.toFinset ∪ insert (r.free_entities.data (r.free_entities.len - 1)) u := by
        ext x
        simp only [List.toFinset_cons, Finset.mem_union, Finset.mem_insert]
        tauto
      rw [this]
      exact h5

theorem reachable_initial : Reachable initial ∅ := Reachable.init init_sys

theorem pool_reachable_after_first_alloc :
    PoolReachable after_first_alloc (insert 4095 ∅) :=
  PoolReachable.alloc_entity (PoolReachable.init init_sys)
    (alloc_entity_ok initial (by decide))

theorem reachable_after_add_transform : Reachable after_add_transform ∅ := by
  refine Reachable.add .Transform 5 reachable_initial ?_
  rw [add]
  show ((ComponentArray.empty : ComponentArray TransformComponent).alloc_for 5 >>= _) = _
  rw [ComponentArray.alloc_for_fresh_ok _ (by decide) (by decide) (by decide)]
  rfl

end Entity

namespace Entity

/-! ## Claims about the registry and the archetype -/

/-- C3 (release removes the entity everywhere), evaluated on the scenario of
`main`: after `init()`, `Archetype<TransformComponent, HealthComponent>::alloc()`
returns `e = 4095`, and after `free_entity(e)` the identifier is back in the
free pool and gone from the Transform store, yet still active in the Health
store. -/
theorem C3_free_entity_keeps_health_row :
    ∃ r0 r1 r2, init sys = .ok r0 ∧
      Archetype.alloc [.Transform, .Health] r0 = .ok (4095, r1) ∧
      free_entity 4095 r1 = .ok r2 ∧
      4095 ∈ r2.free_entities.toList ∧
      4095 ∉ r2.transforms.active_entities ∧
      4095 ∈ r2.healths.active_entities := by
  have hne : 0 < initial.free_entities.len := by decide
  obtain ⟨r1, h1, -, h3, -⟩ :=
    RInv.initial.archetype_alloc_ok hne [.Transform, .Health]
  have h1' : Archetype.alloc [.Transform, .Health] initial = .ok (4095, r1) := h1
  have hr1 : Reachable r1 (insert 4095 ∅) :=
    Reachable.archetype_alloc [.Transform, .Health] reachable_initial h1'
  obtain ⟨t, -, -, ht, hfree⟩ := hr1.rinv.free_entity_ok (Finset.mem_insert_self 4095 ∅)
  refine ⟨initial, r1, _, init_sys, h1', hfree, ?_, ?_, ?_⟩
  · show 4095 ∈ StaticArray.toList _
    rw [StaticArray.toList_appended]
    exact List.mem_append_right _ (List.mem_singleton_self _)
  · show 4095 ∉ t.active_entities
    rw [ht]
    exact Finset.not_mem_erase _ _
  · exact h3 .Health (by simp)

/-- C4 (partition invariant).  After `init()` and any sequence of
`alloc_entity` / `free_entity` calls, `free_entity` only on identifiers in
use: the free pool holds no identifier twice, no identifier is both in the pool
and in use, the identifiers in the pool or in use are exactly those below
`MAX_ENTITIES`, and `alloc_entity` never returns an identifier in use. -/
theorem C4_partition_invariant (r : EntitySubsystem) (u : Finset Nat)
    (h : PoolReachable r u) :
    r.free_entities.toList.Nodup ∧
    (∀ id, ¬ (id ∈ r.free_entities.toList ∧ id ∈ u)) ∧
    (∀ id, (id ∈ r.free_entities.toList ∨ id ∈ u) ↔ id < MAX_ENTITIES) ∧
    (∀ e r', alloc_entity r = .ok (e, r') → e ∉ u) := by
  have hinv := h.reachable.rinv
  refine ⟨hinv.nodup, fun id hh => hinv.free id hh.1 hh.2, fun id => (hinv.cover id).symm, ?_⟩
  intro e r' he
  obtain ⟨hl, rfl, -⟩ := alloc_entity_inv he
  exact hinv.free _ (last_mem_toList r hl)

theorem C4_partition_invariant_witness :
    PoolReachable after_first_alloc (insert 4095 ∅) ∧
    (after_first_alloc.free_entities.toList.Nodup ∧
    (∀ id, ¬ (id ∈ after_first_alloc.free_entities.toList ∧ id ∈ insert 4095 (∅ : Finset Nat))) ∧
    (∀ id, (id ∈ after_first_alloc.free_entities.toList ∨ id ∈ insert 4095 (∅ : Finset Nat)) ↔
      id < MAX_ENTITIES) ∧
    (∀ e r', alloc_entity after_first_alloc = .ok (e, r') → e ∉ insert 4095 (∅ : Finset Nat))) :=
  ⟨pool_reachable_after_first_alloc,
    C4_partition_invariant after_first_alloc (insert 4095 ∅) pool_reachable_after_first_alloc⟩

/-- C5 (capacity boundary).  After `init()`, `MAX_ENTITIES` calls of
`alloc_entity` in a row all return and the next one stops on the assertion of
`pop`.  In every registry state, with or without identifiers in use,
`alloc_entity` stops on that assertion exactly when the pool is empty and
returns otherwise.  In a reachable state, after `free_entity` of an identifier
in use the next `alloc_entity` returns. -/
theorem C5_capacity_boundary (r : EntitySubsystem) :
    (∃ r0 es r1, init sys = .ok r0 ∧ alloc_many MAX_ENTITIES r0 = .ok (es, r1) ∧
      es.length = MAX_ENTITIES ∧ Reachable r1 es.toFinset ∧
      alloc_entity r1 = .error .assertion) ∧
    (alloc_entity r = .error .assertion ↔ r.free_entities.len = 0) ∧
    (r.free_entities.len ≠ 0 → ∃ e r', alloc_entity r = .ok (e, r')) ∧
    (∀ (u : Finset Nat) (id : Nat), Reachable r u → id ∈ u →
      ∃ r', free_entity id r = .ok r' ∧ ∃ e r'', alloc_entity r' = .ok (e, r'')) := by
  refine ⟨?_, ?_, ?_, ?_⟩
  · obtain ⟨es, r1, h1, h2, h3, h4⟩ :=
      alloc_many_ok MAX_ENTITIES reachable_initial (Nat.le_refl _)
    refine ⟨initial, es, r1, init_sys, h1, h2, by simpa using h4, ?_⟩
    apply alloc_entity_empty
    rw [h3]
    decide
  · constructor
    · intro he
      by_cases hl : 0 < r.free_entities.len
      · rw [alloc_entity_ok r hl] at he
        cases he
      · omega
    · intro hl
      exact alloc_entity_empty r (by omega)
  · intro hl
    exact ⟨_, _, alloc_entity_ok r (by omega)⟩
  · intro u id h hid
    obtain ⟨t, -, -, -, hfree⟩ := h.rinv.free_entity_ok hid
    exact ⟨_, hfree, _, _, alloc_entity_ok _ (Nat.succ_pos _)⟩

theorem C5_capacity_boundary_witness :
    Reachable after_first_alloc (insert 4095 ∅) ∧ 4095 ∈ insert 4095 (∅ : Finset Nat) ∧
    initial.free_entities.len ≠ 0 ∧
    ((alloc_entity initial = .error .assertion ↔ initial.free_entities.len = 0) ∧
    (∃ e r', alloc_entity initial = .ok (e, r')) ∧
    (alloc_entity sys = .error .assertion ↔ sys.free_entities.len = 0) ∧
    (∃ r', free_entity 4095 after_first_alloc = .ok r' ∧
      ∃ e r'', alloc_entity r' = .ok (e, r''))) :=
  ⟨pool_reachable_after_first_alloc.reachable, Finset.mem_insert_self _ _, by decide,
    (C5_capacity_boundary initial).2.1,
    (C5_capacity_boundary initial).2.2.1 (by decide),
    (C5_capacity_boundary sys).2.1,
    (C5_capacity_boundary after_first_alloc).2.2.2 (insert 4095 ∅) 4095
      pool_reachable_after_first_alloc.reachable (Finset.mem_insert_self _ _)⟩

/-- C7 (the archetype query result is the union).  For every registry state,
type list and initial `out`, `find_entities(out)` leaves in `out` its initial
content united with the active sets of the listed stores; on an empty `out`
the empty type list gives the empty set and a one-type list gives that store's
active set. -/
theorem C7_find_entities_is_union (types : List ComponentKind) (r : EntitySubsystem)
    (out : EntitySet) :
    Archetype.find_entities types r out =
      out ∪ types.toFinset.biUnion (fun k => (r.get_component_array k).active_entities) ∧
    Archetype.find_entities [] r ∅ = ∅ ∧
    ∀ k, Archetype.find_entities [k] r ∅ = (r.get_component_array k).active_entities := by
  have key : ∀ (ts : List ComponentKind) (o : EntitySet),
      Archetype.find_entities ts r o =
        o ∪ ts.toFinset.biUnion (fun k => (r.get_component_array k).active_entities) := by
    intro ts o
    ext x
    rw [Archetype.find_entities, mem_find, Finset.mem_union, Finset.mem_biUnion]
    simp only [List.mem_toFinset]
  refine ⟨key types out, ?_, ?_⟩
  · rw [key]; simp
  · intro k; rw [key]; simp

/-- C8, as the code behaves: the query of
`Archetype<TransformComponent, HealthComponent>` on an empty output set returns
an identifier exactly when it is active in the Transform store or in the
Health store. -/
theorem C8_find_entities_any_component (r : EntitySubsystem) (id : Nat) :
    id ∈ Archetype.find_entities [.Transform, .Health] r ∅ ↔
      (id ∈ r.transforms.active_entities ∨ id ∈ r.healths.active_entities) := by
  rw [Archetype.find_entities, mem_find]
  constructor
  · rintro (h | ⟨k, _, hk⟩)
    · exact absurd h (Finset.not_mem_empty id)
    · cases k with
      | Transform => exact Or.inl hk
      | Health => exact Or.inr hk
  · rintro (h | h)
    · exact Or.inr ⟨.Transform, by simp, h⟩
    · exact Or.inr ⟨.Health, by simp, h⟩

/-- C8 as stated fails: after `init()` and `add<TransformComponent>(5)` the
query returns 5, which is not active in the Health store. -/
theorem C8_find_entities_not_all_components :
    ¬ (∀ (r : EntitySubsystem) (u : Finset Nat), Reachable r u →
        ∀ id ∈ Archetype.find_entities [.Transform, .Health] r ∅,
          id ∈ r.transforms.active_entities ∧ id ∈ r.healths.active_entities) := by
  intro hall
  have h5 : (5 : Nat) ∈ Archetype.find_entities [.Transform, .Health] after_add_transform ∅ := by
    rw [Archetype.find_entities, mem_find]
    exact Or.inr ⟨.Transform, by simp, Finset.mem_insert_self _ _⟩
  exact Finset.not_mem_empty 5 (hall after_add_transform ∅ reachable_after_add_transform 5 h5).2

/-- C9 (archetype allocation).  In a reachable registry state with a non-empty
free pool, `Archetype<TransformComponent, HealthComponent>::alloc()` returns an
identifier that was in the pool, is no longer in it, is active in the Transform
store and in the Health store, and is among the result of that archetype's
`find_entities` on an empty output set. -/
theorem C9_archetype_alloc (r : EntitySubsystem) (u : Finset Nat) (h : Reachable r u)
    (hne : 0 < r.free_entities.len) :
    ∃ e r', Archetype.alloc [.Transform, .Health] r = .ok (e, r') ∧
      e ∈ r.free_entities.toList ∧ e ∉ r'.free_entities.toList ∧
      e ∈ r'.transforms.active_entities ∧ e ∈ r'.healths.active_entities ∧
      e ∈ Archetype.find_entities [.Transform, .Health] r' ∅ := by
  obtain ⟨r', h1, h2, h3, -⟩ := h.rinv.archetype_alloc_ok hne [.Transform, .Health]
  refine ⟨_, r', h1, last_mem_toList r hne, ?_, h3 .Transform (by simp), h3 .Health (by simp), ?_⟩
  · rw [h2]
    exact h.rinv.not_mem_popped hne
  · rw [Archetype.find_entities, mem_find]
    exact Or.inr ⟨.Transform, by simp, h3 .Transform (by simp)⟩

theorem C9_archetype_alloc_witness :
    Reachable initial ∅ ∧ 0 < initial.free_entities.len ∧
    ∃ e r', Archetype.alloc [.Transform, .Health] initial = .ok (e, r') ∧
      e ∈ initial.free_entities.toList ∧ e ∉ r'.free_entities.toList ∧
      e ∈ r'.transforms.active_entities ∧ e ∈ r'.healths.active_entities ∧
      e ∈ Archetype.find_entities [.Transform, .Health] r' ∅ :=
  ⟨reachable_initial, by decide, C9_archetype_alloc initial ∅ reachable_initial (by decide)⟩

end Entity

namespace Entity

/-! ## Claims about the bounded buffer -/

namespace StaticArray

variable {DataType : Type} {Capacity : Nat}

theorem index_checks_pass (a : StaticArray DataType Capacity) (idx : Nat) (v : DataType)
    (h1 : 0 < a.len) (h2 : idx < Capacity) :
    a.get idx = .ok (a.data idx) ∧ a.get_ptr idx = .ok idx ∧
    a.set idx v = .ok { a with data := Function.update a.data idx v } ∧
    a.swap_remove idx = .ok
      { data := Function.update (Function.update a.data idx (a.data (a.len - 1)))
                  (a.len - 1) (a.data idx),
        len := a.len - 1 } := by
  simp only [get, get_ptr, set, swap_remove, assert_has_items, assert_in_bounds]
  simp only [h1, h2, Nat.zero_le, true_and, if_true, bind, Except.bind, pure, Except.pure,
    and_self]

theorem index_checks_fail (a : StaticArray DataType Capacity) (idx : Nat) (v : DataType)
    (h : a.len = 0 ∨ Capacity ≤ idx) :
    a.get idx = .error .assertion ∧ a.get_ptr idx = .error .assertion ∧
    a.set idx v = .error .assertion ∧ a.swap_remove idx = .error .assertion := by
  simp only [get, get_ptr, set, swap_remove, assert_has_items, assert_in_bounds]
  by_cases h1 : 0 < a.len
  · have h2 : ¬ idx < Capacity := by omega
    simp only [h1, h2, and_false, if_true, if_false, bind, Except.bind, and_self]
  · simp only [h1, if_false, bind, Except.bind, and_self]

end StaticArray

/-- C11, as the code behaves: `get`, `get_ptr`, `set` and `swap_remove` stop on
an assertion exactly when the buffer is empty or the index is not below
`Capacity`; on a non-empty buffer every index below `Capacity`, also one at or
beyond the current length, passes both assertions, and the call reads, returns
the address of, writes, or swaps out that cell. -/
theorem C11_index_checked_against_capacity {DataType : Type} {Capacity : Nat}
    (a : StaticArray DataType Capacity) (idx : Nat) (v : DataType) :
    (a.get idx = .error .assertion ↔ (a.len = 0 ∨ Capacity ≤ idx)) ∧
    (a.get_ptr idx = .error .assertion ↔ (a.len = 0 ∨ Capacity ≤ idx)) ∧
    (a.set idx v = .error .assertion ↔ (a.len = 0 ∨ Capacity ≤ idx)) ∧
    (a.swap_remove idx = .error .assertion ↔ (a.len = 0 ∨ Capacity ≤ idx)) ∧
    (¬ (a.len = 0 ∨ Capacity ≤ idx) →
      a.get idx = .ok (a.data idx) ∧ a.get_ptr idx = .ok idx ∧
      a.set idx v = .ok { a with data := Function.update a.data idx v } ∧
      a.swap_remove idx = .ok
        { data := Function.update (Function.update a.data idx (a.data (a.len - 1)))
                    (a.len - 1) (a.data idx),
          len := a.len - 1 }) := by
  by_cases h : a.len = 0 ∨ Capacity ≤ idx
  · obtain ⟨h1, h2, h3, h4⟩ := StaticArray.index_checks_fail a idx v h
    exact ⟨⟨fun _ => h, fun _ => h1⟩, ⟨fun _ => h, fun _ => h2⟩, ⟨fun _ => h, fun _ => h3⟩,
      ⟨fun _ => h, fun _ => h4⟩, fun hn => absurd h hn⟩
  · have hp : 0 < a.len ∧ idx < Capacity := by omega
    obtain ⟨h1, h2, h3, h4⟩ := StaticArray.index_checks_pass a idx v hp.1 hp.2
    refine ⟨⟨fun he => ?_, fun hh => absurd hh h⟩, ⟨fun he => ?_, fun hh => absurd hh h⟩,
      ⟨fun he => ?_, fun hh => absurd hh h⟩, ⟨fun he => ?_, fun hh => absurd hh h⟩,
      fun _ => ⟨h1, h2, h3, h4⟩⟩
    · rw [h1] at he; cases he
    · rw [h2] at he; cases he
    · rw [h3] at he; cases he
    · rw [h4] at he; cases he

/-- C11 as stated fails: in a buffer of capacity 4 that was filled with 5, 6, 7
and popped twice, the length is 1, yet at index 2 (beyond the length) `get`
returns the popped 7, `get_ptr` returns the cell, `set` writes it, and
`swap_remove` returns with the length shrunk to 0. -/
theorem C11_index_beyond_length_accepted :
    ∃ a : StaticArray Nat 4, popped_buffer = .ok a ∧ a.len = 1 ∧ a.len ≤ 2 ∧
      a.get 2 = .ok 7 ∧ a.get_ptr 2 = .ok 2 ∧
      (∃ b, a.set 2 9 = .ok b ∧ b.data 2 = 9) ∧
      (∃ b, a.swap_remove 2 = .ok b ∧ b.len = 0) :=
  ⟨_, rfl, rfl, by decide, rfl, rfl, ⟨_, rfl, rfl⟩, ⟨_, rfl, rfl⟩⟩

end Entity

namespace Entity

theorem perm_append_singleton_set {α : Type} (x : α) :
    ∀ (l : List α) (idx : Nat) (h : idx < l.length),
      (l ++ [x]).Perm (l.get ⟨idx, h⟩ :: l.set idx x) := by
  intro l
  induction l with
  | nil => intro idx h; exact absurd h (Nat.not_lt_zero _)
  | cons a l ih =>
    intro idx h
    cases idx with
    | zero =>
      show (a :: (l ++ [x])).Perm (a :: x :: l)
      exact List.Perm.cons a (List.perm_append_singleton x l)
    | succ k =>
      have hk : k < l.length := Nat.lt_of_succ_lt_succ h
      show (a :: (l ++ [x])).Perm (l.get ⟨k, hk⟩ :: a :: l.set k x)
      exact (List.Perm.cons a (ih k hk)).trans (List.Perm.swap _ _ _)

theorem map_range_update {α : Type} (f : Nat → α) (m idx : Nat) (x : α) :
    (List.range m).map (Function.update f idx x) = ((List.range m).map f).set idx x := by
  apply List.ext_getElem
  · simp
  · intro i h1 h2
    simp only [List.getElem_map, List.getElem_set]
    rw [List.getElem_range]
    by_cases hi : idx = i
    · subst hi
      rw [if_pos rfl, Function.update_same]
    · rw [if_neg hi, Function.update_noteq (Ne.symm hi)]

theorem map_range_update_ge {α : Type} (f : Nat → α) (m idx : Nat) (x : α) (h : m ≤ idx) :
    (List.range m).map (Function.update f idx x) = (List.range m).map f := by
  apply List.map_congr_left
  intro i hi
  have := List.mem_range.mp hi
  exact Function.update_noteq (by omega) _ _

/-- C12 (buffer `swap_remove`).  For a buffer within its capacity, of length
`n > 0`, and an index `idx < n`: the call returns, the length becomes `n - 1`,
the cell `idx` (when `idx < n - 1`) holds the element that was last, every
other cell below `n - 1` holds what it held, and the live elements are the old
ones with one occurrence of the element formerly at `idx` taken out. -/
theorem C12_buffer_swap_remove {DataType : Type} {Capacity : Nat}
    (a : StaticArray DataType Capacity) (hcap : a.len ≤ Capacity) (hn : 0 < a.len)
    (idx : Nat) (hidx : idx < a.len) :
    ∃ b, a.swap_remove idx = .ok b ∧ b.len = a.len - 1 ∧
      (idx < a.len - 1 → b.data idx = a.data (a.len - 1)) ∧
      (∀ i, i < a.len - 1 → i ≠ idx → b.data i = a.data i) ∧
      a.toList.Perm (a.data idx :: b.toList) := by
  obtain ⟨-, -, -, h4⟩ := StaticArray.index_checks_pass a idx (a.data idx) hn (by omega)
  refine ⟨_, h4, rfl, ?_, ?_, ?_⟩
  · intro hlt
    show Function.update (Function.update a.data idx (a.data (a.len - 1)))
      (a.len - 1) (a.data idx) idx = _
    rw [Function.update_noteq (by omega), Function.update_same]
  · intro i hi hne
    show Function.update (Function.update a.data idx (a.data (a.len - 1)))
      (a.len - 1) (a.data idx) i = _
    rw [Function.update_noteq (by omega), Function.update_noteq hne]
  · rw [StaticArray.toList_popped a hn]
    show (List.map a.data (List.range (a.len - 1)) ++ [a.data (a.len - 1)]).Perm
      (a.data idx :: List.map (Function.update (Function.update a.data idx
        (a.data (a.len - 1))) (a.len - 1) (a.data idx)) (List.range (a.len - 1)))
    rw [map_range_update_ge _ _ _ _ (Nat.le_refl _)]
    by_cases hlast : idx = a.len - 1
    · rw [map_range_update_ge _ _ _ _ (by omega), hlast]
      exact List.perm_append_singleton _ _
    · rw [map_range_update]
      have hlen : idx < (List.map a.data (List.range (a.len - 1))).length := by
        rw [List.length_map, List.length_range]; omega
      have hp := perm_append_singleton_set (a.data (a.len - 1)) _ idx hlen
      have hget : (List.map a.data (List.range (a.len - 1))).get ⟨idx, hlen⟩ = a.data idx := by
        simp
      rw [hget] at hp
      exact hp

theorem C12_buffer_swap_remove_witness :
    sample_buffer.len ≤ 4 ∧ 0 < sample_buffer.len ∧ 0 < sample_buffer.len ∧
      ∃ b, sample_buffer.swap_remove 0 = .ok b ∧ b.len = sample_buffer.len - 1 ∧
        (0 < sample_buffer.len - 1 → b.data 0 = sample_buffer.data (sample_buffer.len - 1)) ∧
        (∀ i, i < sample_buffer.len - 1 → i ≠ 0 → b.data i = sample_buffer.data i) ∧
        sample_buffer.toList.Perm (sample_buffer.data 0 :: b.toList) :=
  ⟨by decide, by decide, by decide,
    C12_buffer_swap_remove sample_buffer (by decide) (by decide) 0 (by decide)⟩

end Entity

namespace Entity
namespace ComponentArray

variable {Component : Type}

/-! ## Further claims about one Component Store -/

theorem Inv.mapping_ok {s : ComponentArray Component} (h : Inv s) : s.mapping_ok :=
  fun e he => ⟨(h.active e he).2.2, (h.active e he).2.1⟩

theorem Inv.indirect_injOn {s : ComponentArray Component} (h : Inv s) {e e' : Nat}
    (he : e ∈ s.active_entities) (he' : e' ∈ s.active_entities)
    (heq : s.indirect e = s.indirect e') : e = e' := by
  rw [← (h.active e he).2.2, heq, (h.active e' he').2.2]

/-- C15 (sparse-set invariant).  In a reachable store every active entity `e`
has `owner[indirect[e]] == e` and `indirect[e] < components.size()`, and the
same holds in the store that `alloc_for`, `remove_from` or `set` on an
identifier below `MAX_ENTITIES` returns. -/
theorem C15_sparse_set_invariant [Inhabited Component] (s : ComponentArray Component)
    (hs : Reachable s) (id : Nat) (hid : id < MAX_ENTITIES) (v : Component) :
    s.mapping_ok ∧
    (∀ s', s.alloc_for id = .ok s' → s'.mapping_ok) ∧
    (∀ s', s.remove_from id = .ok s' → s'.mapping_ok) ∧
    (∀ s', s.set id v = .ok s' → s'.mapping_ok) :=
  ⟨hs.inv.mapping_ok,
    fun _ h => (Reachable.alloc_for id hs hid h).inv.mapping_ok,
    fun _ h => (Reachable.remove_from id hs hid h).inv.mapping_ok,
    fun _ h => (Reachable.set id v hs hid h).inv.mapping_ok⟩

theorem C15_sparse_set_invariant_witness :
    Reachable sample_store ∧ 2 < MAX_ENTITIES ∧
    (sample_store.mapping_ok ∧
    (∀ s', sample_store.alloc_for 2 = .ok s' → s'.mapping_ok) ∧
    (∀ s', sample_store.remove_from 2 = .ok s' → s'.mapping_ok) ∧
    (∀ s', sample_store.set 2 50 = .ok s' → s'.mapping_ok)) :=
  ⟨sample_store_reachable, by decide,
    C15_sparse_set_invariant sample_store sample_store_reachable 2 (by decide) 50⟩

/-- C16 (dense arrays have no holes).  In a reachable store the dense length
is the number of active entities, every slot below the length is owned by an
active entity mapped back to it, and the mapping is a bijection from the active
entities onto the slots below the length. -/
theorem C16_dense_no_holes [Inhabited Component] (s : ComponentArray Component)
    (hs : Reachable s) :
    s.components.size = s.active_entities.card ∧ s.slots_ok ∧
    Set.BijOn s.indirect (↑s.active_entities) (↑(Finset.range s.components.size)) := by
  have h := hs.inv
  refine ⟨h.card.symm, h.slot, ?_, ?_, ?_⟩
  · intro e he
    exact Finset.mem_coe.mpr (Finset.mem_range.mpr (h.active e (Finset.mem_coe.mp he)).2.1)
  · intro e he e' he' heq
    exact h.indirect_injOn (Finset.mem_coe.mp he) (Finset.mem_coe.mp he') heq
  · intro i hi
    have hi' : i < s.components.len := Finset.mem_range.mp (Finset.mem_coe.mp hi)
    exact ⟨s.owner i, Finset.mem_coe.mpr (h.slot i hi').1, (h.slot i hi').2⟩

theorem C16_dense_no_holes_witness :
    Reachable sample_store ∧
    (sample_store.components.size = sample_store.active_entities.card ∧
      sample_store.slots_ok ∧
      Set.BijOn sample_store.indirect (↑sample_store.active_entities)
        (↑(Finset.range sample_store.components.size))) :=
  ⟨sample_store_reachable, C16_dense_no_holes sample_store sample_store_reachable⟩

/-- C17 (adding creates a default row and disturbs nothing else).  In a
reachable store, `alloc_for` on an inactive identifier below `MAX_ENTITIES`
returns; afterwards the identifier is active, `get` on it returns the
value-initialised component, the dense length is one more, and every entity
that was active is still active and `get` returns for it what it returned
before. -/
theorem C17_alloc_for_adds_default_row [Inhabited Component] (s : ComponentArray Component)
    (hs : Reachable s) (e : Nat) (he : e < MAX_ENTITIES) (hna : e ∉ s.active_entities) :
    ∃ s', s.alloc_for e = .ok s' ∧ e ∈ s'.active_entities ∧
      s'.get e = .ok default ∧ s'.components.size = s.components.size + 1 ∧
      ∀ e', e' ∈ s.active_entities →
        e' ∈ s'.active_entities ∧ ∃ v, s.get e' = .ok v ∧ s'.get e' = .ok v := by
  have h := hs.inv
  have h' := h.allocated hna he
  have hmem : e ∈ (s.allocated e).active_entities := Finset.mem_insert_self _ _
  refine ⟨s.allocated e, alloc_for_fresh_ok s hna he (h.len_lt hna he), hmem, ?_, rfl, ?_⟩
  · rw [h'.get_ok hmem]
    show Except.ok (Function.update s.components.data s.components.len default
      (Function.update s.indirect e s.components.len e)) = _
    rw [Function.update_same, Function.update_same]
  · intro e' he'
    have hmem' : e' ∈ (s.allocated e).active_entities := Finset.mem_insert_of_mem he'
    have hne : e' ≠ e := fun hh => hna (hh ▸ he')
    refine ⟨hmem', _, h.get_ok he', ?_⟩
    rw [h'.get_ok hmem']
    show Except.ok (Function.update s.components.data s.components.len default
      (Function.update s.indirect e s.components.len e')) = _
    rw [Function.update_noteq hne,
      Function.update_noteq (Nat.ne_of_lt (h.active e' he').2.1)]

theorem C17_alloc_for_adds_default_row_witness :
    Reachable sample_store ∧ 9 < MAX_ENTITIES ∧ 9 ∉ sample_store.active_entities ∧
    ∃ s', sample_store.alloc_for 9 = .ok s' ∧ 9 ∈ s'.active_entities ∧
      s'.get 9 = .ok default ∧ s'.components.size = sample_store.components.size + 1 ∧
      ∀ e', e' ∈ sample_store.active_entities →
        e' ∈ s'.active_entities ∧ ∃ v, sample_store.get e' = .ok v ∧ s'.get e' = .ok v :=
  ⟨sample_store_reachable, by decide, by decide,
    C17_alloc_for_adds_default_row sample_store sample_store_reachable 9 (by decide)
      (by decide)⟩

/-- C18 (component count bound).  In a reachable store the number of live
components is at most `MAX_ENTITIES`; for an identifier below `MAX_ENTITIES`
that is not active the buffer is not full, and `alloc_for` on any identifier
below `MAX_ENTITIES` returns, so the capacity assertion of `append` does not
fire. -/
theorem C18_component_count_bound [Inhabited Component] (s : ComponentArray Component)
    (hs : Reachable s) (id : Nat) (hid : id < MAX_ENTITIES) :
    s.components.size ≤ MAX_ENTITIES ∧
    (id ∉ s.active_entities → s.components.size < MAX_ENTITIES) ∧
    (∃ s', s.alloc_for id = .ok s') ∧ s.alloc_for id ≠ .error .assertion := by
  have h := hs.inv
  obtain ⟨s', hs', -⟩ := h.alloc_for_ok hid
  refine ⟨h.len_le, fun hna => h.len_lt hna hid, ⟨s', hs'⟩, ?_⟩
  rw [hs']
  exact fun hh => by cases hh

theorem C18_component_count_bound_witness :
    Reachable sample_store ∧ 9 < MAX_ENTITIES ∧
    (sample_store.components.size ≤ MAX_ENTITIES ∧
    (9 ∉ sample_store.active_entities → sample_store.components.size < MAX_ENTITIES) ∧
    (∃ s', sample_store.alloc_for 9 = .ok s') ∧
    sample_store.alloc_for 9 ≠ .error .assertion) :=
  ⟨sample_store_reachable, by decide,
    C18_component_count_bound sample_store sample_store_reachable 9 (by decide)⟩

/-- C20 (`set` touches only its own row).  In a reachable store, `set(e, v)` on
an active entity returns a store with the same active set, dense length, owner
array and mapping, in which `get` on every other active entity returns what it
returned before. -/
theorem C20_set_frame [Inhabited Component] (s : ComponentArray Component)
    (hs : Reachable s) (e : Nat) (he : e ∈ s.active_entities) (v : Component) :
    ∃ s', s.set e v = .ok s' ∧
      s'.active_entities = s.active_entities ∧ s'.components.size = s.components.size ∧
      s'.owner = s.owner ∧ s'.indirect = s.indirect ∧
      ∀ e', e' ∈ s.active_entities → e' ≠ e →
        ∃ w, s.get e' = .ok w ∧ s'.get e' = .ok w := by
  have h := hs.inv
  refine ⟨s.written e v, h.set_ok v he, rfl, rfl, rfl, rfl, ?_⟩
  intro e' he' hne
  refine ⟨_, h.get_ok he', ?_⟩
  rw [(h.written e v).get_ok he']
  show Except.ok (Function.update s.components.data (s.indirect e) v (s.indirect e')) = _
  rw [Function.update_noteq (fun hh => hne (h.indirect_injOn he' he hh))]

theorem C20_set_frame_witness :
    Reachable sample_store ∧ 2 ∈ sample_store.active_entities ∧
    ∃ s', sample_store.set 2 77 = .ok s' ∧
      s'.active_entities = sample_store.active_entities ∧
      s'.components.size = sample_store.components.size ∧
      s'.owner = sample_store.owner ∧ s'.indirect = sample_store.indirect ∧
      ∀ e', e' ∈ sample_store.active_entities → e' ≠ 2 →
        ∃ w, sample_store.get e' = .ok w ∧ s'.get e' = .ok w :=
  ⟨sample_store_reachable, by decide,
    C20_set_frame sample_store sample_store_reachable 2 (by decide) 77⟩

end ComponentArray
end Entity

namespace Entity

/-! ## Further claims about the free pool -/

theorem alloc_many_eq (n : Nat) : ∀ (r : EntitySubsystem), n ≤ r.free_entities.len →
    alloc_many n r = .ok
      ((List.range n).map (fun j => r.free_entities.data (r.free_entities.len - (j + 1))),
        { r with free_entities := { r.free_entities with len := r.free_entities.len - n } }) := by
  induction n with
  | zero => intro r _; rfl
  | succ n ih =>
    intro r hn
    have hne : 0 < r.free_entities.len := by omega
    rw [alloc_many, alloc_entity_ok r hne]
    show (alloc_many n _ >>= fun p =>
      pure (r.free_entities.data (r.free_entities.len - 1) :: p.1, p.2)) = _
    rw [ih _ (by show n ≤ r.free_entities.len - 1; omega)]
    show Except.ok _ = Except.ok _
    have hl : r.free_entities.len - 1 - n = r.free_entities.len - (n + 1) := by omega
    have hm : List.map (fun j => r.free_entities.data (r.free_entities.len - 1 - (j + 1)))
          (List.range n) =
        List.map ((fun j => r.free_entities.data (r.free_entities.len - (j + 1))) ∘ Nat.succ)
          (List.range n) := by
      apply List.map_congr_left
      intro j _
      show r.free_entities.data (r.free_entities.len - 1 - (j + 1)) =
        r.free_entities.data (r.free_entities.len - (j + 1 + 1))
      rw [Nat.sub_sub, Nat.add_comm 1 (j + 1)]
    simp only [hl, hm, List.range_succ_eq_map, List.map_cons, List.map_map]

/-- C14 (initial pool and allocation order).  `init()` on the fresh registry
returns a pool of length `MAX_ENTITIES` holding `i` at position `i`, and `k`
calls of `alloc_entity` in a row (`k ≤ MAX_ENTITIES`) return, call number
`j + 1` handing out `MAX_ENTITIES - (j + 1)`. -/
theorem C14_initial_pool_and_order :
    ∃ r0, init sys = .ok r0 ∧ r0.free_entities.size = MAX_ENTITIES ∧
      (∀ i, i < MAX_ENTITIES → r0.free_entities.data i = i) ∧
      ∀ k, k ≤ MAX_ENTITIES → ∃ r1, alloc_many k r0 =
        .ok ((List.range k).map (fun j => MAX_ENTITIES - (j + 1)), r1) := by
  refine ⟨initial, init_sys, rfl, ?_, ?_⟩
  · intro i hi
    show (if i < MAX_ENTITIES then i else 0) = i
    rw [if_pos hi]
  · intro k hk
    refine ⟨{ initial with free_entities :=
      { initial.free_entities with len := initial.free_entities.len - k } }, ?_⟩
    rw [alloc_many_eq k initial hk]
    congr 2
    apply List.map_congr_left
    intro j hj
    have hj' : j < k := List.mem_range.mp hj
    show (if MAX_ENTITIES - (j + 1) < MAX_ENTITIES then MAX_ENTITIES - (j + 1) else 0) = _
    rw [if_pos (by omega)]

theorem RInv.free_entity_not_full {r : EntitySubsystem} {u : Finset Nat} (h : RInv r u)
    (hlt : r.free_entities.len < MAX_ENTITIES) (id : Nat) :
    ∃ t, t.Inv ∧ t.active_entities = r.transforms.active_entities.erase id ∧
      Entity.free_entity id r = .ok { r with
        transforms := t,
        free_entities := { data := Function.update r.free_entities.data r.free_entities.len id,
                           len := r.free_entities.len + 1 } } := by
  by_cases ha : id ∈ r.transforms.active_entities
  · refine ⟨r.transforms.removed id, h.transforms.removed ha, rfl, ?_⟩
    rw [Entity.free_entity, h.transforms.remove_from_ok ha]
    simp only [bind, Except.bind]
    rw [StaticArray.append_ok _ _ hlt]
    rfl
  · refine ⟨r.transforms, h.transforms, (Finset.erase_eq_of_not_mem ha).symm, ?_⟩
    rw [Entity.free_entity, ComponentArray.remove_from_inactive ha]
    simp only [bind, Except.bind]
    rw [StaticArray.append_ok _ _ hlt]
    rfl

theorem RInv.free_entity_full {r : EntitySubsystem} {u : Finset Nat} (h : RInv r u)
    (hfull : ¬ r.free_entities.len < MAX_ENTITIES) (id : Nat) :
    Entity.free_entity id r = .error .assertion := by
  by_cases ha : id ∈ r.transforms.active_entities
  · rw [Entity.free_entity, h.transforms.remove_from_ok ha]
    simp only [bind, Except.bind]
    rw [StaticArray.append_full _ _ hfull]
  · rw [Entity.free_entity, ComponentArray.remove_from_inactive ha]
    simp only [bind, Except.bind]
    rw [StaticArray.append_full _ _ hfull]

/-- C13, as the code behaves: `free_entity` checks nothing about the
identifier.  In a reachable registry state (where `free_entity` was only called
on identifiers in use) the pool holds no identifier twice, `alloc_entity`
never returns one in use, and `free_entity` of an identifier in use keeps the
pool free of duplicates; but `free_entity` of an identifier already in the pool
appends a second copy whenever the pool is not full, and stops on the capacity
assertion of `append` when it is full. -/
theorem C13_release_unguarded (r : EntitySubsystem) (u : Finset Nat) (h : Reachable r u)
    (id : Nat) :
    r.free_entities.toList.Nodup ∧
    (∀ e r', alloc_entity r = .ok (e, r') → e ∉ u) ∧
    (id ∈ u → ∃ r', free_entity id r = .ok r' ∧ r'.free_entities.toList.Nodup) ∧
    (id ∈ r.free_entities.toList → r.free_entities.size < MAX_ENTITIES →
      ∃ r', free_entity id r = .ok r' ∧
        r'.free_entities.toList = r.free_entities.toList ++ [id] ∧
        r'.free_entities.toList.count id = 2) ∧
    (r.free_entities.size = MAX_ENTITIES → free_entity id r = .error .assertion) := by
  have hinv := h.rinv
  refine ⟨hinv.nodup, ?_, ?_, ?_, ?_⟩
  · intro e r' he
    obtain ⟨hl, rfl, -⟩ := alloc_entity_inv he
    exact hinv.free _ (last_mem_toList r hl)
  · intro hid
    obtain ⟨t, -, -, -, hfree⟩ := hinv.free_entity_ok hid
    exact ⟨_, hfree, (hinv.free_entity hid hfree).nodup⟩
  · intro hmem hlt
    obtain ⟨t, -, -, hfree⟩ := hinv.free_entity_not_full hlt id
    refine ⟨_, hfree, StaticArray.toList_appended _ _, ?_⟩
    show (StaticArray.toList _).count id = 2
    rw [StaticArray.toList_appended, List.count_append,
      List.count_eq_one_of_mem hinv.nodup hmem]
    simp
  · intro hfull
    have hfull' : r.free_entities.len = MAX_ENTITIES := hfull
    exact hinv.free_entity_full (by omega) id

theorem C13_release_unguarded_witness :
    Reachable after_first_alloc (insert 4095 ∅) ∧
    (after_first_alloc.free_entities.toList.Nodup ∧
    (∀ e r', alloc_entity after_first_alloc = .ok (e, r') → e ∉ insert 4095 (∅ : Finset Nat)) ∧
    (4095 ∈ insert 4095 (∅ : Finset Nat) →
      ∃ r', free_entity 4095 after_first_alloc = .ok r' ∧ r'.free_entities.toList.Nodup) ∧
    (4095 ∈ after_first_alloc.free_entities.toList →
      after_first_alloc.free_entities.size < MAX_ENTITIES →
      ∃ r', free_entity 4095 after_first_alloc = .ok r' ∧
        r'.free_entities.toList = after_first_alloc.free_entities.toList ++ [4095] ∧
        r'.free_entities.toList.count 4095 = 2) ∧
    (after_first_alloc.free_entities.size = MAX_ENTITIES →
      free_entity 4095 after_first_alloc = .error .assertion)) :=
  ⟨pool_reachable_after_first_alloc.reachable,
    C13_release_unguarded after_first_alloc (insert 4095 ∅)
      pool_reachable_after_first_alloc.reachable 4095⟩

/-- C13 as stated fails: after `init()` and one `alloc_entity()` (which handed
out 4095), identifier 0 is in the free pool, and `free_entity(0)` returns with
0 in the pool twice. -/
theorem C13_double_release_duplicates :
    Reachable after_first_alloc (insert 4095 ∅) ∧
    0 ∈ after_first_alloc.free_entities.toList ∧
    ∃ r', free_entity 0 after_first_alloc = .ok r' ∧
      r'.free_entities.toList.count 0 = 2 ∧ ¬ r'.free_entities.toList.Nodup := by
  have hr := pool_reachable_after_first_alloc.reachable
  have hinv := hr.rinv
  have hmem : 0 ∈ after_first_alloc.free_entities.toList := by
    rcases (hinv.cover 0).mp (by decide) with h | h
    · exact h
    · exact absurd h (by decide)
  obtain ⟨t, -, -, hfree⟩ := hinv.free_entity_not_full (by decide) 0
  have hcount : (StaticArray.toList
      ({ data := Function.update after_first_alloc.free_entities.data
                   after_first_alloc.free_entities.len 0,
         len := after_first_alloc.free_entities.len + 1 } : EntityArray)).count 0 = 2 := by
    rw [StaticArray.toList_appended, List.count_append,
      List.count_eq_one_of_mem hinv.nodup hmem]
    simp
  refine ⟨hr, hmem, _, hfree, hcount, ?_⟩
  intro hnd
  have hle : (StaticArray.toList
      ({ data := Function.update after_first_alloc.free_entities.data
                   after_first_alloc.free_entities.len 0,
         len := after_first_alloc.free_entities.len + 1 } : EntityArray)).count 0 ≤ 1 :=
    List.nodup_iff_count_le_one.mp hnd 0
  rw [hcount] at hle
  omega

end Entity

namespace Entity

/-! ## Component values after an archetype allocation -/

theorem default_transform_zero : (default : TransformComponent) = ⟨0, 0, 0⟩ := rfl

theorem default_health_zero : (default : HealthComponent) = ⟨0, 0⟩ := rfl

theorem ComponentArray.Inv.allocated_get_self {Component : Type} [Inhabited Component]
    {s : ComponentArray Component} (h : s.Inv) {id : Nat}
    (hna : id ∉ s.active_entities) (hid : id < MAX_ENTITIES) :
    (s.allocated id).get id = .ok default := by
  rw [(h.allocated hna hid).get_ok (Finset.mem_insert_self _ _)]
  show Except.ok (Function.update s.components.data s.components.len default
    (Function.update s.indirect id s.components.len id)) = _
  rw [Function.update_same, Function.update_same]

theorem ComponentArray.alloc_for_active_eq {Component : Type} [Inhabited Component]
    {s s' : ComponentArray Component} {id : Nat} (hs : s.alloc_for id = .ok s') :
    s'.active_entities = insert id s.active_entities := by
  by_cases ha : id ∈ s.active_entities
  · rw [ComponentArray.alloc_for_active ha] at hs
    injection hs with hs
    rw [← hs, Finset.insert_eq_of_mem ha]
  · obtain ⟨-, -, rfl⟩ := ComponentArray.alloc_for_fresh ha hs
    rfl

theorem ComponentArray.Inv.set_active_eq {Component : Type}
    {s s' : ComponentArray Component} (h : s.Inv) {id : Nat} {val : Component}
    (hs : s.set id val = .ok s') : s'.active_entities = s.active_entities := by
  by_cases hid : id ∈ s.active_entities
  · rw [h.set_ok val hid] at hs
    injection hs with hs
    rw [← hs]
    rfl
  · rw [ComponentArray.set_inactive s val hid] at hs
    cases hs

theorem archetype_alloc_pair {r : EntitySubsystem} {u : Finset Nat} (h : RInv r u)
    (hne : 0 < r.free_entities.len) :
    ∃ t' h', r.transforms.alloc_for (r.free_entities.data (r.free_entities.len - 1)) = .ok t' ∧
      r.healths.alloc_for (r.free_entities.data (r.free_entities.len - 1)) = .ok h' ∧
      Archetype.alloc [.Transform, .Health] r =
        .ok (r.free_entities.data (r.free_entities.len - 1),
          { free_entities := { r.free_entities with len := r.free_entities.len - 1 },
            transforms := t', healths := h' }) := by
  have hlt := h.mem_pool_lt (last_mem_toList r hne)
  obtain ⟨t', ht, -⟩ := h.transforms.alloc_for_ok hlt
  obtain ⟨h', hh, -⟩ := h.healths.alloc_for_ok hlt
  refine ⟨t', h', ht, hh, ?_⟩
  rw [Archetype.alloc, alloc_entity_ok r hne]
  simp only [bind, Except.bind, Archetype.apply_archetype, add,
    EntitySubsystem.get_component_array, EntitySubsystem.put_component_array, ht, hh, pure,
    Except.pure]

theorem OwnedReachable.to_reachable {r : EntitySubsystem} {u : Finset Nat}
    (h : OwnedReachable r u) : Reachable r u := by
  induction h with
  | init hi => exact Reachable.init hi
  | alloc_entity _ hs ih => exact Reachable.alloc_entity ih hs
  | free_entity id _ hid hs ih => exact Reachable.free_entity id ih hid hs
  | add k id _ _ hs ih => exact Reachable.add k id ih hs
  | set k id val _ _ hs ih => exact Reachable.set k id val ih hs
  | archetype_alloc types _ hs ih => exact Reachable.archetype_alloc types ih hs

theorem add_transforms_active {k : ComponentKind} {id : Nat} {r r' : EntitySubsystem}
    (hs : add k id r = .ok r') :
    ∀ x ∈ r'.transforms.active_entities, x = id ∨ x ∈ r.transforms.active_entities := by
  obtain ⟨a, ha, rfl⟩ := add_inv hs
  have hact := ComponentArray.alloc_for_active_eq ha
  intro x hx
  cases k with
  | Transform =>
    have hx' : x ∈ a.active_entities := hx
    rw [hact] at hx'
    exact Finset.mem_insert.mp hx'
  | Health => exact Or.inr hx

theorem apply_archetype_transforms_active {types : List ComponentKind} {e : Nat} :
    ∀ {r r' : EntitySubsystem}, Archetype.apply_archetype types e r = .ok r' →
      ∀ x ∈ r'.transforms.active_entities, x = e ∨ x ∈ r.transforms.active_entities := by
  induction types with
  | nil =>
    intro r r' hs x hx
    injection hs with hs
    exact Or.inr (hs ▸ hx)
  | cons k ks ih =>
    intro r r' hs x hx
    obtain ⟨r1, h1, h2⟩ := bind_ok_inv hs
    rcases ih h2 x hx with hxe | hx1
    · exact Or.inl hxe
    · exact add_transforms_active h1 x hx1

/-- With `add` and `set` applied to identifiers in use only, every entity active
in the Transform store is in use. -/
theorem OwnedReachable.transforms_in_use {r : EntitySubsystem} {u : Finset Nat}
    (h : OwnedReachable r u) : ∀ x ∈ r.transforms.active_entities, x ∈ u := by
  induction h with
  | init hi =>
    rw [init_sys] at hi
    injection hi with hi
    subst hi
    intro x hx
    exact absurd hx (Finset.not_mem_empty x)
  | alloc_entity _ hs ih =>
    obtain ⟨-, -, rfl⟩ := alloc_entity_inv hs
    exact fun x hx => Finset.mem_insert_of_mem (ih x hx)
  | free_entity id hr hid hs ih =>
    obtain ⟨t, -, -, ht, hok⟩ := hr.to_reachable.rinv.free_entity_ok hid
    rw [hok] at hs
    injection hs with hs
    subst hs
    intro x hx
    have hx' : x ∈ t.active_entities := hx
    rw [ht] at hx'
    obtain ⟨hne, hxa⟩ := Finset.mem_erase.mp hx'
    exact Finset.mem_erase.mpr ⟨hne, ih x hxa⟩
  | add k id _ hid hs ih =>
    intro x hx
    rcases add_transforms_active hs x hx with rfl | hx'
    · exact hid
    · exact ih x hx'
  | set k id val hr _ hs ih =>
    obtain ⟨a, ha, rfl⟩ := set_inv hs
    have hact := (hr.to_reachable.rinv.get_component_array k).set_active_eq ha
    intro x hx
    cases k with
    | Transform =>
      have hx' : x ∈ a.active_entities := hx
      rw [hact] at hx'
      exact ih x hx'
    | Health => exact ih x hx
  | archetype_alloc types _ hs ih =>
    obtain ⟨r1, h1, h2⟩ := archetype_alloc_inv hs
    obtain ⟨-, -, rfl⟩ := alloc_entity_inv h1
    intro x hx
    rcases apply_archetype_transforms_active h2 x hx with rfl | hx'
    · exact Finset.mem_insert_self _ _
    · exact Finset.mem_insert_of_mem (ih x hx')

theorem reachable_after_set_on_free_id : Reachable after_set_on_free_id ∅ := by
  have h1 : Reachable ({ initial with
      transforms := (ComponentArray.empty).allocated 4095 } : EntitySubsystem) ∅ := by
    refine Reachable.add .Transform 4095 reachable_initial ?_
    rw [add]
    show ((ComponentArray.empty : ComponentArray TransformComponent).alloc_for 4095 >>= _) = _
    rw [ComponentArray.alloc_for_fresh_ok _ (by decide) (by decide) (by decide)]
    rfl
  refine Reachable.set .Transform 4095 ⟨1, 2, 3⟩ h1 ?_
  rw [set]
  show ((((ComponentArray.empty : ComponentArray TransformComponent).allocated 4095).set
    4095 ⟨1, 2, 3⟩) >>= _) = _
  rw [h1.rinv.transforms.set_ok ⟨1, 2, 3⟩ (Finset.mem_insert_self _ _)]
  rfl

end Entity

namespace Entity

/-- C19, as the code behaves: in a reachable registry state with a non-empty
free pool, `Archetype<TransformComponent, HealthComponent>::alloc()` returns an
entity `e`; a listed component in whose store `e` was not active reads as the
value-initialised (all-zero) value afterwards, and one in whose store `e` was
already active keeps the value it had, since `alloc_for` does nothing for an
active entity.  When `add` and `set` were only ever applied to identifiers in
use, `e` is never active in the Transform store beforehand, so
`get<TransformComponent>(e)` returns the default value. -/
theorem C19_archetype_alloc_values (r : EntitySubsystem) (u : Finset Nat)
    (h : Reachable r u) (hne : 0 < r.free_entities.size) :
    ∃ e r', Archetype.alloc [.Transform, .Health] r = .ok (e, r') ∧
      (e ∉ r.transforms.active_entities →
        get .Transform e r' = .ok (default : TransformComponent)) ∧
      (e ∉ r.healths.active_entities →
        get .Health e r' = .ok (default : HealthComponent)) ∧
      (e ∈ r.transforms.active_entities → get .Transform e r' = get .Transform e r) ∧
      (e ∈ r.healths.active_entities → get .Health e r' = get .Health e r) ∧
      (OwnedReachable r u → get .Transform e r' = .ok (default : TransformComponent)) := by
  have hinv := h.rinv
  have hne' : 0 < r.free_entities.len := hne
  have hlt := hinv.mem_pool_lt (last_mem_toList r hne')
  obtain ⟨t', h', ht, hh, halloc⟩ := archetype_alloc_pair hinv hne'
  have hT : r.free_entities.data (r.free_entities.len - 1) ∉ r.transforms.active_entities →
      t'.get (r.free_entities.data (r.free_entities.len - 1)) = .ok default := by
    intro hna
    obtain ⟨-, -, rfl⟩ := ComponentArray.alloc_for_fresh hna ht
    exact hinv.transforms.allocated_get_self hna hlt
  refine ⟨_, _, halloc, hT, ?_, ?_, ?_, ?_⟩
  · intro hna
    obtain ⟨-, -, rfl⟩ := ComponentArray.alloc_for_fresh hna hh
    exact hinv.healths.allocated_get_self hna hlt
  · intro ha
    rw [ComponentArray.alloc_for_active ha] at ht
    injection ht with ht
    subst ht
    rfl
  · intro ha
    rw [ComponentArray.alloc_for_active ha] at hh
    injection hh with hh
    subst hh
    rfl
  · intro ho
    apply hT
    intro ha
    exact hinv.free _ (last_mem_toList r hne') (ho.transforms_in_use _ ha)

theorem C19_archetype_alloc_values_witness :
    Reachable initial ∅ ∧ 0 < initial.free_entities.size ∧
    ∃ e r', Archetype.alloc [.Transform, .Health] initial = .ok (e, r') ∧
      (e ∉ initial.transforms.active_entities →
        get .Transform e r' = .ok (default : TransformComponent)) ∧
      (e ∉ initial.healths.active_entities →
        get .Health e r' = .ok (default : HealthComponent)) ∧
      (e ∈ initial.transforms.active_entities →
        get .Transform e r' = get .Transform e initial) ∧
      (e ∈ initial.healths.active_entities → get .Health e r' = get .Health e initial) ∧
      (OwnedReachable initial ∅ → get .Transform e r' = .ok (default : TransformComponent)) :=
  ⟨reachable_initial, by decide,
    C19_archetype_alloc_values initial ∅ reachable_initial (by decide)⟩

/-- C19 as stated fails: after `init()`, `add<TransformComponent>(4095)` and
`set<TransformComponent>(4095, {1, 2, 3})`, the next
`Archetype<TransformComponent, HealthComponent>::alloc()` returns 4095 and
`get<TransformComponent>(4095)` returns `{1, 2, 3}`, not the default value. -/
theorem C19_alloc_value_not_default :
    Reachable after_set_on_free_id ∅ ∧ 0 < after_set_on_free_id.free_entities.size ∧
    ∃ r', Archetype.alloc [.Transform, .Health] after_set_on_free_id = .ok (4095, r') ∧
      get .Transform 4095 r' = .ok ⟨1, 2, 3⟩ ∧
      get .Transform 4095 r' ≠ .ok (default : TransformComponent) := by
  have hr := reachable_after_set_on_free_id
  have hinv := hr.rinv
  have hne : 0 < after_set_on_free_id.free_entities.len := by decide
  obtain ⟨t', h', ht, -, halloc⟩ := archetype_alloc_pair hinv hne
  have ha : (4095 : Nat) ∈ after_set_on_free_id.transforms.active_entities :=
    Finset.mem_insert_self _ _
  have ht' : after_set_on_free_id.transforms.alloc_for 4095 = .ok t' := ht
  rw [ComponentArray.alloc_for_active ha] at ht'
  injection ht' with ht'
  subst ht'
  have hget : get .Transform 4095
      ({ free_entities := { after_set_on_free_id.free_entities with
                            len := after_set_on_free_id.free_entities.len - 1 },
         transforms := after_set_on_free_id.transforms, healths := h' } : EntitySubsystem)
      = .ok ⟨1, 2, 3⟩ := by
    show after_set_on_free_id.transforms.get 4095 = _
    rw [hinv.transforms.get_ok ha]
    rfl
  refine ⟨hr, hne, _, halloc, hget, ?_⟩
  rw [hget]
  exact fun hh => by cases hh

end Entity
